import Mathlib

/-!
Verification of the libcryptocam decryption pipeline (src/decrypt.rs,
src/decrypt_video.rs, src/decrypt_image.rs) against its specification.

The Rust code is shallowly embedded: the decrypted plaintext stream is a
`List Nat` of bytes, machine integers are `Nat`/`Int` with explicit
wrap-around at `2 ^ 64` (release-mode wrapping semantics for `usize`/`i64`
arithmetic), and every call the job makes on its progress sink, on the
muxer and on the audio bitstream filter is recorded in an event trace.
External capabilities (muxer, bitstream filter, file creation) are
abstracted by an environment that decides the outcome of each call, since
their failures are not determined by the byte stream itself.
-/

namespace Cryptocam

/-- Little-endian bytes of `n`, `k` bytes long (the canonical byte image,
each entry is below 256). -/
def leBytes : Nat → Nat → List Nat
  | 0, _ => []
  | k + 1, n => n % 256 :: leBytes k (n / 256)

/-- Little-endian read of a byte list, as done by
`bytes::LittleEndian::read_u32` / `read_u64` in the source. -/
def readLE : List Nat → Nat
  | [] => 0
  | b :: bs => b + 256 * readLE bs

/-- Reinterpretation of an unsigned 64-bit value as a signed one, i.e. the
Rust cast `as i64` applied to a `u64`. -/
def toI64 (u : Nat) : Int :=
  if u % 2 ^ 64 < 2 ^ 63 then ((u % 2 ^ 64 : Nat) : Int)
  else ((u % 2 ^ 64 : Nat) : Int) - 2 ^ 64

/-- Wrapping of a mathematical integer into the signed 64-bit range: the
result of `i64` arithmetic under two's-complement (release-mode) wrap. -/
def wrapI64 (z : Int) : Int := (z + 2 ^ 63) % 2 ^ 64 - 2 ^ 63

theorem leBytes_length (k n : Nat) : (leBytes k n).length = k := by
  induction k generalizing n with
  | zero => rfl
  | succ k ih => simp [leBytes, ih]

theorem readLE_leBytes (k n : Nat) : readLE (leBytes k n) = n % 2 ^ (8 * k) := by
  induction k generalizing n with
  | zero => simp [leBytes, readLE, Nat.mod_one]
  | succ k ih =>
    have h : 2 ^ (8 * (k + 1)) = 256 * 2 ^ (8 * k) := by
      rw [Nat.mul_add, Nat.pow_add]
      norm_num [Nat.mul_comm]
    rw [leBytes, readLE, ih, h, Nat.mod_mul]

theorem readLE_leBytes8 (n : Nat) : readLE (leBytes 8 n) = n % 2 ^ 64 :=
  readLE_leBytes 8 n

theorem readLE_leBytes4 (n : Nat) : readLE (leBytes 4 n) = n % 2 ^ 32 :=
  readLE_leBytes 4 n

theorem toI64_mod (u : Nat) : toI64 (u % 2 ^ 64) = toI64 u := by
  simp [toI64, Nat.mod_mod_of_dvd _ (dvd_refl (2 ^ 64))]

theorem toI64_lt (u : Nat) : toI64 u < 2 ^ 63 := by
  have h : u % 2 ^ 64 < 2 ^ 64 := Nat.mod_lt _ (Nat.pos_pow_of_pos 64 (by norm_num))
  unfold toI64
  split <;> omega

theorem toI64_ge (u : Nat) : -2 ^ 63 ≤ toI64 u := by
  have h : u % 2 ^ 64 < 2 ^ 64 := Nat.mod_lt _ (Nat.pos_pow_of_pos 64 (by norm_num))
  unfold toI64
  split <;> omega

theorem toI64_neg_of_ge (u : Nat) (h : 2 ^ 63 ≤ u % 2 ^ 64) : toI64 u < 0 := by
  have h2 : u % 2 ^ 64 < 2 ^ 64 := Nat.mod_lt _ (Nat.pos_pow_of_pos 64 (by norm_num))
  unfold toI64
  split <;> omega

theorem toI64_of_lt (u : Nat) (h : u % 2 ^ 64 < 2 ^ 63) :
    toI64 u = ((u % 2 ^ 64 : Nat) : Int) := by
  unfold toI64
  split <;> omega

theorem wrapI64_eq_self (z : Int) (h1 : -2 ^ 63 ≤ z) (h2 : z < 2 ^ 63) :
    wrapI64 z = z := by
  unfold wrapI64
  rw [Int.emod_eq_of_lt (by omega) (by omega)]
  omega

theorem wrapI64_period (z k : Int) : wrapI64 (z + 2 ^ 64 * k) = wrapI64 z := by
  unfold wrapI64
  rw [show z + 2 ^ 64 * k + 2 ^ 63 = z + 2 ^ 63 + 2 ^ 64 * k by ring,
    Int.add_mul_emod_self_left]

/-- If a packet's unsigned 64-bit PTS is (as an integer) below the recorded
signed origin, the subtraction does not wrap and the result is negative. -/
theorem wrap_sub_neg (u : Nat) (o : Int) (ho1 : -2 ^ 63 ≤ o) (ho2 : o < 2 ^ 63)
    (h : ((u % 2 ^ 64 : Nat) : Int) < o) : wrapI64 (toI64 u - o) < 0 := by
  have hcast : (0 : Int) ≤ ((u % 2 ^ 64 : Nat) : Int) := Int.ofNat_nonneg _
  have hlt : u % 2 ^ 64 < 2 ^ 63 := by
    have : ((u % 2 ^ 64 : Nat) : Int) < 2 ^ 63 := lt_trans h ho2
    omega
  rw [toI64_of_lt u hlt]
  rw [wrapI64_eq_self _ (by omega) (by omega)]
  omega

/-! ## Event traces

Every call a job makes on its progress sink, on the output muxer and on
the audio bitstream filter is recorded as one event, in call order. -/

/-- One observable call made during a job run. `pktBuilt t u ts` records the
construction of a packet (`PacketMut ... .with_pts(...)`): `t` is the type
byte, `u` the unsigned PTS parsed from the header, `ts` the signed
timestamp attached to the packet. `muxPushFiltered tag` is a muxer push of
the filter output packet identified by `tag` (tags number filter output
packets in emission order). -/
inductive Ev where
  | setTotal (n : Nat)
  | setOffset (n : Nat)
  | onProgress (n : Nat)
  | onComplete
  | onError
  | pktBuilt (ptype : Nat) (ptsU : Nat) (ts : Int)
  | muxPushDirect (ts : Int)
  | bsfPushEv
  | muxPushFiltered (tag : Nat)
  | bsfFlushEv
  | muxFlushEv
deriving DecidableEq

/-- Outcomes of the external calls `mux_video` makes, one decision per call
site (indexed by a per-kind call counter where a call can happen many
times). `bsfOutCount n` is the number of output packets the `n`-th
successful `audio_bsf.push` makes available to later `take` calls;
`bsfFlushOutCount` the number made available by `audio_bsf.flush`. -/
structure Env where
  muxPushErr : Nat → Bool
  bsfPushErr : Nat → Bool
  bsfTakeErr : Nat → Bool
  bsfOutCount : Nat → Nat
  bsfFlushErr : Bool
  bsfFlushOutCount : Nat
  muxFlushErr : Bool
  channelLayoutNone : Bool
  bsfCreateErr : Bool
  bsfSetParamsErr : Bool
  outputFormatNone : Bool
  fileCreateErr : Bool
  addVideoStreamErr : Bool
  addAudioStreamErr : Bool
  muxerBuildErr : Bool

/-- Mutable state of the `mux_video` packet loop: `first_pts`, the
cumulative `progress` counter, the per-kind call counters indexing into
`Env`, the next fresh filter-output tag and the queue of filter-output
packets not yet taken. -/
structure MuxState where
  firstPts : Option Int
  progress : Nat
  muxC : Nat
  bsfC : Nat
  takeC : Nat
  tagC : Nat
  queue : List Nat

/-- How the packet loop ended: clean end of stream, a hard error (reported
through the sink), or cancellation. -/
inductive Outcome where
  | normalEnd
  | errored
  | cancelled
deriving DecidableEq

/-- Result of the `while let Ok(Some(filtered_packet)) = audio_bsf.take()`
drain loop: its events, the updated take and mux-push call counters, the
filter packets still queued, and whether a `muxer.push` failed (the only
failure that loop reports; a `take` error merely ends it). -/
structure DrainRes where
  evs : List Ev
  takeC : Nat
  muxC : Nat
  queue : List Nat
  failed : Bool

/-- The `take`/`muxer.push` drain loop of `mux_video` (decrypt_video.rs
lines 243-248 and 268-273). A `take` whose outcome is an error ends the
loop silently (the `while let Ok(..)` pattern); an empty queue is
`Ok(None)`; otherwise the dequeued packet is pushed to the muxer, and a
push failure reports `on_error` and aborts the job. -/
def drainQueue (env : Env) : Nat → Nat → List Nat → DrainRes
  | takeC, muxC, q =>
    if env.bsfTakeErr takeC then ⟨[], takeC + 1, muxC, q, false⟩
    else
      match q with
      | [] => ⟨[], takeC + 1, muxC, [], false⟩
      | tag :: restQ =>
        if env.muxPushErr muxC then ⟨[.onError], takeC + 1, muxC + 1, restQ, true⟩
        else
          let d := drainQueue env (takeC + 1) (muxC + 1) restQ
          ⟨.muxPushFiltered tag :: d.evs, d.takeC, d.muxC, d.queue, d.failed⟩

/-- The packet demultiplexing loop of `mux_video` (decrypt_video.rs lines
200-261): read a 13-byte header (`read_exact` succeeds iff 13 bytes
remain; any failure, including mid-header truncation, ends the loop
normally via `while let Ok(())`), then check the cancel flag, classify the
type byte (unrecognized types `continue` without consuming the declared
payload), read the payload, set `first_pts` on the first recognized
packet, build the packet with timestamp `pts - first_pts`, push video
packets to the muxer and audio packets through the bitstream filter, then
bump and report progress. `fuel` only bounds recursion; every caller
passes more fuel than the byte count, which each iteration decreases. -/
def muxLoop (env : Env) (cancel : Bool) :
    Nat → MuxState → List Nat → List Ev × MuxState × Outcome
  | 0, st, _ => ([], st, .normalEnd)
  | fuel + 1, st, data =>
    if data.length < 13 then ([], st, .normalEnd)
    else if cancel then ([], st, .cancelled)
    else
      let t := data.headD 0
      let rest := data.drop 13
      if t = 1 ∨ t = 2 then
        let ptsU := readLE ((data.drop 1).take 8)
        let len := readLE ((data.drop 9).take 4)
        if rest.length < len then ([.onError], st, .errored)
        else
          let rest2 := rest.drop len
          let origin := st.firstPts.getD (toI64 ptsU)
          let ts := wrapI64 (toI64 ptsU - origin)
          if t = 1 then
            if env.muxPushErr st.muxC then
              ([.pktBuilt 1 ptsU ts, .onError], { st with firstPts := some origin }, .errored)
            else
              let st2 := { st with
                firstPts := some origin
                muxC := st.muxC + 1
                progress := st.progress + 13 + len }
              let r := muxLoop env cancel fuel st2 rest2
              (.pktBuilt 1 ptsU ts :: .muxPushDirect ts :: .onProgress st2.progress :: r.1, r.2)
          else
            if env.bsfPushErr st.bsfC then
              ([.pktBuilt 2 ptsU ts, .onError], { st with firstPts := some origin }, .errored)
            else
              let n := env.bsfOutCount st.bsfC
              let d := drainQueue env st.takeC st.muxC
                (st.queue ++ (List.range n).map (st.tagC + ·))
              if d.failed then
                (.pktBuilt 2 ptsU ts :: .bsfPushEv :: d.evs,
                 { st with firstPts := some origin }, .errored)
              else
                let st2 := { st with
                  firstPts := some origin
                  bsfC := st.bsfC + 1
                  takeC := d.takeC
                  muxC := d.muxC
                  tagC := st.tagC + n
                  queue := d.queue
                  progress := st.progress + 13 + len }
                let r := muxLoop env cancel fuel st2 rest2
                (.pktBuilt 2 ptsU ts :: .bsfPushEv ::
                  (d.evs ++ .onProgress st2.progress :: r.1), r.2)
      else
        muxLoop env cancel fuel st rest

/-- The loop state at entry of `mux_video`'s packet loop. -/
def initState : MuxState :=
  { firstPts := none, progress := 0, muxC := 0, bsfC := 0, takeC := 0, tagC := 0, queue := [] }

/-- End-of-stream handling of `mux_video` (decrypt_video.rs lines
263-282), run only when the loop ended normally: flush the audio filter
(failure is `on_error` and return), drain and mux its retained packets
(push failure is `on_error` and return, a `take` error silently ends the
drain), flush the muxer (failure is `on_error` and return), then
`on_complete`. -/
def muxEpilogue (env : Env) (st : MuxState) : List Ev :=
  if env.bsfFlushErr then [.onError]
  else
    let d := drainQueue env st.takeC st.muxC
      (st.queue ++ (List.range env.bsfFlushOutCount).map (st.tagC + ·))
    if d.failed then .bsfFlushEv :: d.evs
    else if env.muxFlushErr then .bsfFlushEv :: (d.evs ++ [.onError])
    else .bsfFlushEv :: (d.evs ++ [.muxFlushEv, .onComplete])

/-- The packet loop followed by its end-of-stream handling (the part of
`mux_video` after codec/filter/muxer setup succeeded), returning the event
trace, the final loop state and the loop outcome. -/
def muxVideoFull (env : Env) (cancel : Bool) (data : List Nat) :
    List Ev × MuxState × Outcome :=
  let r := muxLoop env cancel (data.length + 1) initState data
  match r.2.2 with
  | .normalEnd => (r.1 ++ muxEpilogue env r.2.1, r.2.1, .normalEnd)
  | oc => (r.1, r.2.1, oc)

/-- The whole of `mux_video` (decrypt_video.rs lines 97-283): the
sequential setup steps, each of whose failures reports `on_error` and
returns, followed by the packet loop and its end-of-stream handling. -/
def muxVideo (env : Env) (cancel : Bool) (data : List Nat) : List Ev :=
  if env.channelLayoutNone then [.onError]
  else if env.bsfCreateErr then [.onError]
  else if env.bsfSetParamsErr then [.onError]
  else if env.outputFormatNone then [.onError]
  else if env.fileCreateErr then [.onError]
  else if env.addVideoStreamErr then [.onError]
  else if env.addAudioStreamErr then [.onError]
  else if env.muxerBuildErr then [.onError]
  else (muxVideoFull env cancel data).1

/-- `VideoMuxingJob::run` (decrypt_video.rs lines 82-94): report total file
size and payload offset on the sink, then run `mux_video`. -/
def videoRun (env : Env) (cancel : Bool) (total offset : Nat) (data : List Nat) : List Ev :=
  .setTotal total :: .setOffset offset :: muxVideo env cancel data

/-- All the setup steps of `mux_video` succeed (channel layout resolved,
filter created and configured, output format guessed, file created, both
streams added, muxer built). -/
def setupOk (env : Env) : Prop :=
  env.channelLayoutNone = false ∧ env.bsfCreateErr = false ∧ env.bsfSetParamsErr = false ∧
  env.outputFormatNone = false ∧ env.fileCreateErr = false ∧ env.addVideoStreamErr = false ∧
  env.addAudioStreamErr = false ∧ env.muxerBuildErr = false

/-- An environment in which every external call succeeds and the audio
filter retains no packets. -/
def happyEnv : Env :=
  { muxPushErr := fun _ => false, bsfPushErr := fun _ => false, bsfTakeErr := fun _ => false,
    bsfOutCount := fun _ => 0, bsfFlushErr := false, bsfFlushOutCount := 0,
    muxFlushErr := false, channelLayoutNone := false, bsfCreateErr := false,
    bsfSetParamsErr := false, outputFormatNone := false, fileCreateErr := false,
    addVideoStreamErr := false, addAudioStreamErr := false, muxerBuildErr := false }

/-! ## Trace projections -/

/-- The values reported through `on_progress`, in call order. -/
def progressVals (t : List Ev) : List Nat :=
  t.filterMap fun e => match e with | .onProgress n => some n | _ => none

/-- The packets built by the loop, in order: type byte, unsigned PTS, and
the signed timestamp attached before muxing or filtering. -/
def builtPkts (t : List Ev) : List (Nat × Nat × Int) :=
  t.filterMap fun e => match e with | .pktBuilt a u ts => some (a, u, ts) | _ => none

/-- Number of `on_error` calls in a trace. -/
def cntE (t : List Ev) : Nat := t.count .onError

/-- Number of `on_complete` calls in a trace. -/
def cntC (t : List Ev) : Nat := t.count .onComplete

/-! ## Well-formed packet streams -/

/-- An abstract payload packet: type byte, absolute PTS and payload. -/
structure Pkt where
  ptype : Nat
  pts : Nat
  payload : List Nat
deriving DecidableEq

/-- The 13 header bytes of one packet: 1 type byte, 8 little-endian PTS
bytes, 4 little-endian length bytes. -/
def hdrBytes (t pts len : Nat) : List Nat :=
  t :: (leBytes 8 pts ++ leBytes 4 len)

/-- The byte image of one packet: header then payload. -/
def encodePkt (p : Pkt) : List Nat :=
  hdrBytes p.ptype p.pts p.payload.length ++ p.payload

/-- The byte image of a packet stream. -/
def encodeStream : List Pkt → List Nat
  | [] => []
  | p :: ps => encodePkt p ++ encodeStream ps

/-- Reference reading of the claim "every subsequent packet is parsed at
its correct boundary": the headers obtained by skipping, after each
13-byte header, exactly the declared payload length (type, PTS, length
triples). This follows the spec's words and is compared against what the
code does. -/
def specPacketBoundaries : Nat → List Nat → List (Nat × Nat × Nat)
  | 0, _ => []
  | fuel + 1, data =>
    if data.length < 13 then []
    else
      let t := data.headD 0
      let ptsU := readLE ((data.drop 1).take 8)
      let len := readLE ((data.drop 9).take 4)
      (t, ptsU, len) :: specPacketBoundaries fuel (data.drop (13 + len))

/-- The packet boundaries of a byte stream under the spec's aligned
reading. -/
def specPackets (data : List Nat) : List (Nat × Nat × Nat) :=
  specPacketBoundaries (data.length + 1) data

/-- The `(type, unsigned PTS, timestamp)` triples the loop builds from a
recognized packet stream, given the incoming `first_pts` state (mirroring
the loop's `st.firstPts.getD` origin computation). -/
def builtOf (o : Option Int) : List Pkt → List (Nat × Nat × Int)
  | [] => []
  | p :: ps =>
    (p.ptype, p.pts % 2 ^ 64, wrapI64 (toI64 p.pts - o.getD (toI64 p.pts))) ::
      builtOf (some (o.getD (toI64 p.pts))) ps

/-- The `first_pts` state after processing a recognized packet stream. -/
def nextFirst (o : Option Int) : List Pkt → Option Int
  | [] => o
  | p :: _ => some (o.getD (toI64 p.pts))

/-- Partial sums of a list starting from an accumulator: the successive
values of the cumulative progress counter. -/
def partialSumsFrom (acc : Nat) : List Nat → List Nat
  | [] => []
  | x :: xs => (acc + x) :: partialSumsFrom (acc + x) xs

/-! ## The orchestrator (decrypt.rs) -/

/-- What `decrypt` (decrypt.rs lines 35-66) can produce once the outer
header was parsed and the stream decrypted. There is no image-job and no
unknown-file-type alternative because the source has no code path
producing either: after reading the 5-byte secondary header it
unconditionally parses video metadata and returns a `VideoMuxingJob`. -/
inductive OrchResult where
  | videoJob (metaBytes : List Nat) (bytesBeforeData : Nat)
  | readFail
  | utf8Fail
  | jsonFail
deriving DecidableEq

/-- Outcomes of the orchestrator's external parsing calls:
`str::from_utf8` and `serde_json::from_str` on the metadata bytes. -/
structure OrchEnv where
  utf8Ok : List Nat → Bool
  parseOk : List Nat → Bool

/-- The metadata length computation of decrypt.rs line 53,
`offset_to_data as usize - 5`: an unchecked `usize` subtraction, which
wraps modulo `2 ^ 64` in release builds (and panics in debug builds)
whenever `offset_to_data < 5`. -/
def metadataLenOf (offset_to_data : Nat) : Nat :=
  (offset_to_data + 2 ^ 64 - 5) % 2 ^ 64

/-- The secondary-header part of `decrypt` (decrypt.rs lines 48-66): read
5 bytes (byte 0 = file type, bytes 1-4 = little-endian offset_to_data),
compute the metadata length by the unchecked subtraction, read that many
metadata bytes, decode UTF-8 and JSON, and return a video job. The
`file_type` byte is read but consulted nowhere. -/
def decryptTail (env : OrchEnv) (header_len : Nat) (decrypted : List Nat) : OrchResult :=
  if decrypted.length < 5 then .readFail
  else
    let file_type := decrypted.headD 0
    let offset_to_data := readLE ((decrypted.drop 1).take 4)
    let rest := decrypted.drop 5
    let metadata_len := metadataLenOf offset_to_data
    if rest.length < metadata_len then .readFail
    else
      let metaBytes := rest.take metadata_len
      if env.utf8Ok metaBytes = false then .utf8Fail
      else if env.parseOk metaBytes = false then .jsonFail
      else .videoJob metaBytes (header_len + offset_to_data)

/-! ## The image job (decrypt_image.rs) -/

/-- Outcomes of the image job's two fallible external calls:
`File::create` and `io::copy`. -/
structure ImgEnv where
  createErr : Bool
  copyErr : Bool

/-- `ImageDecryptionJob::run` (decrypt_image.rs lines 46-73): report total
size and offset, create the output file (failure reports `on_error` and
returns), copy all decrypted bytes (failure reports `on_error` and
returns), then `on_complete`. The cancellation flag parameter is named
`_cancel` in the source and never read. -/
def imageRun (env : ImgEnv) (_cancel : Bool) (total offset : Nat) : List Ev :=
  .setTotal total :: .setOffset offset ::
    (if env.createErr then [.onError]
     else if env.copyErr then [.onError]
     else [.onComplete])

/-! ## List decomposition helpers -/

theorem take_append_length (l s : List Nat) : (l ++ s).take l.length = l := by
  induction l with
  | nil => simp
  | cons a l ih => simp [ih]

theorem drop_append_length (l s : List Nat) : (l ++ s).drop l.length = s := by
  induction l with
  | nil => simp
  | cons a l ih => simp [ih]

theorem hdrBytes_length (t p l : Nat) : (hdrBytes t p l).length = 13 := by
  simp [hdrBytes, leBytes_length]

theorem hdr_append_length (t p l : Nat) (s : List Nat) :
    (hdrBytes t p l ++ s).length = 13 + s.length := by
  simp [hdrBytes_length]

theorem hdr_append_headD (t p l : Nat) (s : List Nat) :
    (hdrBytes t p l ++ s).headD 0 = t := by
  simp [hdrBytes]

theorem take_len_append (l s : List Nat) {n : Nat} (h : l.length = n) :
    (l ++ s).take n = l := by
  subst h; exact take_append_length l s

theorem drop_len_append (l s : List Nat) {n : Nat} (h : l.length = n) :
    (l ++ s).drop n = s := by
  subst h; exact drop_append_length l s

theorem hdr_append_pts (t p l : Nat) (s : List Nat) :
    ((hdrBytes t p l ++ s).drop 1).take 8 = leBytes 8 p := by
  have h : (hdrBytes t p l ++ s).drop 1 = leBytes 8 p ++ (leBytes 4 l ++ s) := by
    simp [hdrBytes]
  rw [h, take_len_append _ _ (leBytes_length 8 p)]

theorem hdr_append_len (t p l : Nat) (s : List Nat) :
    ((hdrBytes t p l ++ s).drop 9).take 4 = leBytes 4 l := by
  have h : (hdrBytes t p l ++ s).drop 9 = (leBytes 8 p ++ (leBytes 4 l ++ s)).drop 8 := by
    simp [hdrBytes]
  rw [h, drop_len_append _ _ (leBytes_length 8 p),
    take_len_append _ _ (leBytes_length 4 l)]

theorem hdr_append_drop13 (t p l : Nat) (s : List Nat) :
    (hdrBytes t p l ++ s).drop 13 = s := by
  have h : (hdrBytes t p l ++ s).drop 13 = (leBytes 8 p ++ (leBytes 4 l ++ s)).drop 12 := by
    simp [hdrBytes]
  rw [h, show (12 : Nat) = 8 + 4 from rfl, ← List.drop_drop,
    drop_len_append _ _ (leBytes_length 8 p), drop_len_append _ _ (leBytes_length 4 l)]

/-! ## Trace projection helpers -/

theorem progressVals_append (a b : List Ev) :
    progressVals (a ++ b) = progressVals a ++ progressVals b := by
  simp [progressVals]

theorem builtPkts_append (a b : List Ev) :
    builtPkts (a ++ b) = builtPkts a ++ builtPkts b := by
  simp [builtPkts]

theorem cntE_append (a b : List Ev) : cntE (a ++ b) = cntE a + cntE b := by
  simp [cntE, List.count_append]

theorem cntC_append (a b : List Ev) : cntC (a ++ b) = cntC a + cntC b := by
  simp [cntC, List.count_append]

theorem progressVals_filtered (tags : List Nat) :
    progressVals (tags.map Ev.muxPushFiltered) = [] := by
  induction tags with
  | nil => rfl
  | cons a tags ih => simp_all [progressVals, List.filterMap_cons]

theorem builtPkts_filtered (tags : List Nat) :
    builtPkts (tags.map Ev.muxPushFiltered) = [] := by
  induction tags with
  | nil => rfl
  | cons a tags ih => simp_all [builtPkts, List.filterMap_cons]

theorem cntE_filtered (tags : List Nat) : cntE (tags.map Ev.muxPushFiltered) = 0 := by
  induction tags with
  | nil => rfl
  | cons a tags ih => simp_all [cntE, List.count_cons]

theorem cntC_filtered (tags : List Nat) : cntC (tags.map Ev.muxPushFiltered) = 0 := by
  induction tags with
  | nil => rfl
  | cons a tags ih => simp_all [cntC, List.count_cons]

/-! ## Drain loop lemmas -/

/-- The drain loop emits only filtered-packet pushes, followed by a single
`on_error` exactly when a muxer push failed. -/
theorem drainQueue_shape (env : Env) :
    ∀ (q : List Nat) (tC mC : Nat), ∃ tags : List Nat,
      (drainQueue env tC mC q).evs = tags.map Ev.muxPushFiltered ++
        (if (drainQueue env tC mC q).failed then [Ev.onError] else []) := by
  intro q
  induction q with
  | nil =>
    intro tC mC
    refine ⟨[], ?_⟩
    rw [drainQueue]
    split <;> simp
  | cons tag restQ ih =>
    intro tC mC
    rw [drainQueue]
    split
    · exact ⟨[], by simp⟩
    · split
      · exact ⟨[], by simp⟩
      · obtain ⟨tags, htags⟩ := ih (tC + 1) (mC + 1)
        exact ⟨tag :: tags, by simp [htags]⟩

/-- If no muxer push can fail, the drain loop never fails. -/
theorem drainQueue_ok (env : Env) (hm : ∀ n, env.muxPushErr n = false) :
    ∀ (q : List Nat) (tC mC : Nat), (drainQueue env tC mC q).failed = false := by
  intro q
  induction q with
  | nil =>
    intro tC mC
    rw [drainQueue]
    split <;> rfl
  | cons tag restQ ih =>
    intro tC mC
    rw [drainQueue]
    split
    · rfl
    · simp only [hm, Bool.false_eq_true, if_false]
      exact ih (tC + 1) (mC + 1)

theorem drainQueue_progressVals (env : Env) (q : List Nat) (tC mC : Nat) :
    progressVals (drainQueue env tC mC q).evs = [] := by
  obtain ⟨tags, h⟩ := drainQueue_shape env q tC mC
  rw [h, progressVals_append, progressVals_filtered]
  split <;> simp [progressVals]

theorem drainQueue_builtPkts (env : Env) (q : List Nat) (tC mC : Nat) :
    builtPkts (drainQueue env tC mC q).evs = [] := by
  obtain ⟨tags, h⟩ := drainQueue_shape env q tC mC
  rw [h, builtPkts_append, builtPkts_filtered]
  split <;> simp [builtPkts]

theorem drainQueue_cntC (env : Env) (q : List Nat) (tC mC : Nat) :
    cntC (drainQueue env tC mC q).evs = 0 := by
  obtain ⟨tags, h⟩ := drainQueue_shape env q tC mC
  rw [h, cntC_append, cntC_filtered]
  split <;> simp [cntC]

theorem drainQueue_cntE (env : Env) (q : List Nat) (tC mC : Nat) :
    cntE (drainQueue env tC mC q).evs =
      if (drainQueue env tC mC q).failed then 1 else 0 := by
  obtain ⟨tags, h⟩ := drainQueue_shape env q tC mC
  rw [h, cntE_append, cntE_filtered]
  split <;> simp [cntE]

/-! ## Loop unfolding lemmas -/

/-- The loop's result does not depend on the fuel bound, as long as the
bound exceeds the byte count (each iteration consumes at least 13 bytes). -/
theorem muxLoop_fuel (env : Env) (cancel : Bool) :
    ∀ f1 f2 (st : MuxState) (data : List Nat), data.length < f1 → data.length < f2 →
      muxLoop env cancel f1 st data = muxLoop env cancel f2 st data := by
  intro f1
  induction f1 with
  | zero => intro f2 st data h1; omega
  | succ f1 ih =>
    intro f2 st data h1 h2
    rcases f2 with _ | f2
    · omega
    · simp only [muxLoop]
      split
      · rfl
      · split
        · rfl
        · rename_i h13 _
          have hrest : (data.drop 13).length = data.length - 13 := List.length_drop 13 data
          split
          · split
            · rfl
            · have hlen : ((data.drop 13).drop (readLE ((data.drop 9).take 4))).length <
                  data.length := by
                simp only [List.length_drop] at *
                omega
              have harg1 : ((data.drop 13).drop (readLE ((data.drop 9).take 4))).length
                  < f1 := by simp only [List.length_drop]; omega
              have harg2 : ((data.drop 13).drop (readLE ((data.drop 9).take 4))).length
                  < f2 := by simp only [List.length_drop]; omega
              split
              · split
                · rfl
                · rw [ih f2 _ _ harg1 harg2]
              · split
                · rfl
                · split
                  · rfl
                  · rw [ih f2 _ _ harg1 harg2]
          · have harg1 : (data.drop 13).length < f1 := by
              simp only [List.length_drop]; omega
            have harg2 : (data.drop 13).length < f2 := by
              simp only [List.length_drop]; omega
            rw [ih f2 _ _ harg1 harg2]

/-! ## Per-packet step lemmas -/

theorem muxLoop_skip_step (env : Env) (st : MuxState) (fuel : Nat) (p : Pkt) (s : List Nat)
    (h1 : p.ptype ≠ 1) (h2 : p.ptype ≠ 2) :
    muxLoop env false (fuel + 1) st (encodePkt p ++ s) =
      muxLoop env false fuel st (p.payload ++ s) := by
  have he : encodePkt p ++ s = hdrBytes p.ptype p.pts p.payload.length ++ (p.payload ++ s) := by
    simp [encodePkt]
  have hc : ¬((hdrBytes p.ptype p.pts p.payload.length ++ (p.payload ++ s)).length < 13) := by
    rw [hdr_append_length]; omega
  rw [he]
  simp only [muxLoop, hc, if_false, Bool.false_eq_true, hdr_append_headD, hdr_append_drop13,
    h1, h2, or_self, ite_false]

theorem muxLoop_video_step (env : Env) (st : MuxState) (fuel : Nat) (p : Pkt) (s : List Nat)
    (h1 : p.ptype = 1) (hwf : p.payload.length < 2 ^ 32)
    (hm : env.muxPushErr st.muxC = false) :
    muxLoop env false (fuel + 1) st (encodePkt p ++ s) =
      (Ev.pktBuilt 1 (p.pts % 2 ^ 64) (wrapI64 (toI64 p.pts - st.firstPts.getD (toI64 p.pts))) ::
        Ev.muxPushDirect (wrapI64 (toI64 p.pts - st.firstPts.getD (toI64 p.pts))) ::
        Ev.onProgress (st.progress + 13 + p.payload.length) ::
        (muxLoop env false fuel
          { st with
            firstPts := some (st.firstPts.getD (toI64 p.pts))
            muxC := st.muxC + 1
            progress := st.progress + 13 + p.payload.length } s).1,
       (muxLoop env false fuel
          { st with
            firstPts := some (st.firstPts.getD (toI64 p.pts))
            muxC := st.muxC + 1
            progress := st.progress + 13 + p.payload.length } s).2) := by
  have he : encodePkt p ++ s = hdrBytes p.ptype p.pts p.payload.length ++ (p.payload ++ s) := by
    simp [encodePkt]
  have hc : ¬((hdrBytes 1 p.pts p.payload.length ++ (p.payload ++ s)).length < 13) := by
    rw [hdr_append_length]; omega
  have hmod : p.payload.length % 2 ^ 32 = p.payload.length := Nat.mod_eq_of_lt hwf
  have hc2 : ¬((p.payload ++ s).length < p.payload.length) := by
    simp [List.length_append]
  have hdrop : (p.payload ++ s).drop p.payload.length = s := drop_len_append _ _ rfl
  rw [he]
  simp only [muxLoop, hc, if_false, Bool.false_eq_true, hdr_append_headD, hdr_append_pts,
    hdr_append_len, hdr_append_drop13, readLE_leBytes8, readLE_leBytes4, hmod, hc2, hdrop,
    toI64_mod, h1, hm, or_true, true_or, or_self, ite_true, ite_false, if_true]

theorem muxLoop_audio_step (env : Env) (st : MuxState) (fuel : Nat) (p : Pkt) (s : List Nat)
    (h2 : p.ptype = 2) (hwf : p.payload.length < 2 ^ 32)
    (hb : env.bsfPushErr st.bsfC = false)
    (hd : (drainQueue env st.takeC st.muxC
      (st.queue ++ (List.range (env.bsfOutCount st.bsfC)).map (st.tagC + ·))).failed = false) :
    muxLoop env false (fuel + 1) st (encodePkt p ++ s) =
      (Ev.pktBuilt 2 (p.pts % 2 ^ 64) (wrapI64 (toI64 p.pts - st.firstPts.getD (toI64 p.pts))) ::
        Ev.bsfPushEv ::
        ((drainQueue env st.takeC st.muxC
            (st.queue ++ (List.range (env.bsfOutCount st.bsfC)).map (st.tagC + ·))).evs ++
          Ev.onProgress (st.progress + 13 + p.payload.length) ::
          (muxLoop env false fuel
            { st with
              firstPts := some (st.firstPts.getD (toI64 p.pts))
              bsfC := st.bsfC + 1
              takeC := (drainQueue env st.takeC st.muxC
                (st.queue ++ (List.range (env.bsfOutCount st.bsfC)).map (st.tagC + ·))).takeC
              muxC := (drainQueue env st.takeC st.muxC
                (st.queue ++ (List.range (env.bsfOutCount st.bsfC)).map (st.tagC + ·))).muxC
              tagC := st.tagC + env.bsfOutCount st.bsfC
              queue := (drainQueue env st.takeC st.muxC
                (st.queue ++ (List.range (env.bsfOutCount st.bsfC)).map (st.tagC + ·))).queue
              progress := st.progress + 13 + p.payload.length } s).1),
       (muxLoop env false fuel
          { st with
            firstPts := some (st.firstPts.getD (toI64 p.pts))
            bsfC := st.bsfC + 1
            takeC := (drainQueue env st.takeC st.muxC
              (st.queue ++ (List.range (env.bsfOutCount st.bsfC)).map (st.tagC + ·))).takeC
            muxC := (drainQueue env st.takeC st.muxC
              (st.queue ++ (List.range (env.bsfOutCount st.bsfC)).map (st.tagC + ·))).muxC
            tagC := st.tagC + env.bsfOutCount st.bsfC
            queue := (drainQueue env st.takeC st.muxC
              (st.queue ++ (List.range (env.bsfOutCount st.bsfC)).map (st.tagC + ·))).queue
            progress := st.progress + 13 + p.payload.length } s).2) := by
  have he : encodePkt p ++ s = hdrBytes p.ptype p.pts p.payload.length ++ (p.payload ++ s) := by
    simp [encodePkt]
  have hc : ¬((hdrBytes 2 p.pts p.payload.length ++ (p.payload ++ s)).length < 13) := by
    rw [hdr_append_length]; omega
  have hmod : p.payload.length % 2 ^ 32 = p.payload.length := Nat.mod_eq_of_lt hwf
  have hc2 : ¬((p.payload ++ s).length < p.payload.length) := by
    simp [List.length_append]
  have hdrop : (p.payload ++ s).drop p.payload.length = s := drop_len_append _ _ rfl
  rw [he]
  simp only [muxLoop, hc, if_false, Bool.false_eq_true, hdr_append_headD, hdr_append_pts,
    hdr_append_len, hdr_append_drop13, readLE_leBytes8, readLE_leBytes4, hmod, hc2, hdrop,
    toI64_mod, h2, hb, hd, or_true, true_or, or_self, ite_true, ite_false, if_true,
    OfNat.ofNat_ne_one, reduceCtorEq]

/-! ## The master run lemma -/

theorem encodePkt_length (p : Pkt) : (encodePkt p).length = 13 + p.payload.length := by
  simp [encodePkt, hdrBytes_length]

theorem nextFirst_some (o : Int) (ps : List Pkt) : nextFirst (some o) ps = some o := by
  cases ps <;> rfl

/-- Processing the byte image of a stream of recognized, well-formed
packets: the loop runs through all of them, producing the expected
progress reports and built packets, reaches `rest` with the expected
state, and continues as a fresh loop on `rest`. -/
theorem muxLoop_append (env : Env) (hm : ∀ n, env.muxPushErr n = false)
    (hb : ∀ n, env.bsfPushErr n = false) :
    ∀ (ps : List Pkt) (st : MuxState) (rest : List Nat) (fuel : Nat),
      (∀ p ∈ ps, p.ptype = 1 ∨ p.ptype = 2) →
      (∀ p ∈ ps, p.payload.length < 2 ^ 32) →
      (encodeStream ps ++ rest).length < fuel →
      ∃ evs : List Ev, ∃ st' : MuxState,
        muxLoop env false fuel st (encodeStream ps ++ rest) =
          (evs ++ (muxLoop env false (rest.length + 1) st' rest).1,
           (muxLoop env false (rest.length + 1) st' rest).2) ∧
        progressVals evs = partialSumsFrom st.progress (ps.map fun p => 13 + p.payload.length) ∧
        builtPkts evs = builtOf st.firstPts ps ∧
        cntE evs = 0 ∧ cntC evs = 0 ∧
        st'.firstPts = nextFirst st.firstPts ps ∧
        st'.progress = st.progress + (ps.map fun p => 13 + p.payload.length).sum := by
  intro ps
  induction ps with
  | nil =>
    intro st rest fuel hrec hwf hfuel
    simp only [encodeStream, List.nil_append] at hfuel ⊢
    refine ⟨[], st, ?_, rfl, rfl, rfl, rfl, rfl, by simp [partialSumsFrom]⟩
    rw [muxLoop_fuel env false fuel (rest.length + 1) st rest hfuel (by omega)]
    simp
  | cons p ps ih =>
    intro st rest fuel hrec hwf hfuel
    have hrecp := hrec p (List.mem_cons_self p ps)
    have hwfp := hwf p (List.mem_cons_self p ps)
    have hassoc : encodeStream (p :: ps) ++ rest = encodePkt p ++ (encodeStream ps ++ rest) := by
      simp [encodeStream]
    rw [hassoc] at hfuel ⊢
    have hlen : (encodePkt p ++ (encodeStream ps ++ rest)).length =
        13 + p.payload.length + (encodeStream ps ++ rest).length := by
      rw [List.length_append, encodePkt_length]
    rcases fuel with _ | f
    · omega
    have hfuel' : (encodeStream ps ++ rest).length < f := by omega
    have hrec' : ∀ q ∈ ps, q.ptype = 1 ∨ q.ptype = 2 :=
      fun q hq => hrec q (List.mem_cons_of_mem _ hq)
    have hwf' : ∀ q ∈ ps, q.payload.length < 2 ^ 32 :=
      fun q hq => hwf q (List.mem_cons_of_mem _ hq)
    rcases hrecp with h1 | h2
    · -- video packet
      rw [muxLoop_video_step env st f p (encodeStream ps ++ rest) h1 hwfp (hm st.muxC)]
      obtain ⟨evs, st', heq, hpv, hbp, he0, hc0, hfp, hpr⟩ :=
        ih { st with
              firstPts := some (st.firstPts.getD (toI64 p.pts))
              muxC := st.muxC + 1
              progress := st.progress + 13 + p.payload.length } rest f hrec' hwf' hfuel'
      rw [heq]
      refine ⟨Ev.pktBuilt 1 (p.pts % 2 ^ 64)
          (wrapI64 (toI64 p.pts - st.firstPts.getD (toI64 p.pts))) ::
        Ev.muxPushDirect (wrapI64 (toI64 p.pts - st.firstPts.getD (toI64 p.pts))) ::
        Ev.onProgress (st.progress + 13 + p.payload.length) :: evs, st', by simp, ?_, ?_, ?_, ?_, ?_, ?_⟩
      · simp only [progressVals, List.filterMap_cons] at hpv ⊢
        simp only [hpv]
        simp [partialSumsFrom, Nat.add_assoc]
      · simp only [builtPkts, List.filterMap_cons] at hbp ⊢
        simp only [hbp]
        simp [builtOf, h1]
      · simp only [cntE, List.count_cons] at he0 ⊢
        simp [he0]
      · simp only [cntC, List.count_cons] at hc0 ⊢
        simp [hc0]
      · simp only [hfp]
        rw [nextFirst_some]
        rfl
      · simp only [hpr]
        simp only [List.map_cons, List.sum_cons]
        omega
    · -- audio packet
      have hd : (drainQueue env st.takeC st.muxC
          (st.queue ++ (List.range (env.bsfOutCount st.bsfC)).map (st.tagC + ·))).failed = false :=
        drainQueue_ok env hm _ _ _
      rw [muxLoop_audio_step env st f p (encodeStream ps ++ rest) h2 hwfp (hb st.bsfC) hd]
      obtain ⟨evs, st', heq, hpv, hbp, he0, hc0, hfp, hpr⟩ :=
        ih { st with
              firstPts := some (st.firstPts.getD (toI64 p.pts))
              bsfC := st.bsfC + 1
              takeC := (drainQueue env st.takeC st.muxC
                (st.queue ++ (List.range (env.bsfOutCount st.bsfC)).map (st.tagC + ·))).takeC
              muxC := (drainQueue env st.takeC st.muxC
                (st.queue ++ (List.range (env.bsfOutCount st.bsfC)).map (st.tagC + ·))).muxC
              tagC := st.tagC + env.bsfOutCount st.bsfC
              queue := (drainQueue env st.takeC st.muxC
                (st.queue ++ (List.range (env.bsfOutCount st.bsfC)).map (st.tagC + ·))).queue
              progress := st.progress + 13 + p.payload.length } rest f hrec' hwf' hfuel'
      rw [heq]
      refine ⟨Ev.pktBuilt 2 (p.pts % 2 ^ 64)
          (wrapI64 (toI64 p.pts - st.firstPts.getD (toI64 p.pts))) ::
        Ev.bsfPushEv ::
        ((drainQueue env st.takeC st.muxC
          (st.queue ++ (List.range (env.bsfOutCount st.bsfC)).map (st.tagC + ·))).evs ++
          Ev.onProgress (st.progress + 13 + p.payload.length) :: evs), st',
        by simp, ?_, ?_, ?_, ?_, ?_, ?_⟩
      · have hdp := drainQueue_progressVals env
          (st.queue ++ (List.range (env.bsfOutCount st.bsfC)).map (st.tagC + ·)) st.takeC st.muxC
        simp only [progressVals] at hdp hpv ⊢
        simp [List.filterMap_cons, List.filterMap_append, hdp, hpv, partialSumsFrom,
          Nat.add_assoc]
      · have hdb := drainQueue_builtPkts env
          (st.queue ++ (List.range (env.bsfOutCount st.bsfC)).map (st.tagC + ·)) st.takeC st.muxC
        simp only [builtPkts] at hdb hbp ⊢
        simp [List.filterMap_cons, List.filterMap_append, hdb, hbp, builtOf, h2]
      · have hde := drainQueue_cntE env
          (st.queue ++ (List.range (env.bsfOutCount st.bsfC)).map (st.tagC + ·)) st.takeC st.muxC
        simp only [hd, if_false, Bool.false_eq_true] at hde
        simp only [cntE] at hde he0 ⊢
        simp [List.count_cons, List.count_append, hde, he0]
      · have hdc := drainQueue_cntC env
          (st.queue ++ (List.range (env.bsfOutCount st.bsfC)).map (st.tagC + ·)) st.takeC st.muxC
        simp only [cntC] at hdc hc0 ⊢
        simp [List.count_cons, List.count_append, hdc, hc0]
      · simp only [hfp]
        rw [nextFirst_some]
        rfl
      · simp only [hpr]
        simp only [List.map_cons, List.sum_cons]
        omega

/-! ## Loop error accounting -/

/-- Error and completion accounting for the packet loop: it never calls
`on_complete`; it calls `on_error` exactly once when (and only when) it
ends in the errored outcome, and then `on_error` is its last event. -/
theorem muxLoop_inv (env : Env) (cancel : Bool) :
    ∀ (fuel : Nat) (st : MuxState) (data : List Nat),
      ((muxLoop env cancel fuel st data).2.2 = .errored →
        ∃ pre : List Ev, (muxLoop env cancel fuel st data).1 = pre ++ [Ev.onError] ∧
          cntE pre = 0 ∧ cntC pre = 0) ∧
      ((muxLoop env cancel fuel st data).2.2 ≠ .errored →
        cntE (muxLoop env cancel fuel st data).1 = 0) ∧
      cntC (muxLoop env cancel fuel st data).1 = 0 := by
  intro fuel
  induction fuel with
  | zero =>
    intro st data
    exact ⟨by simp [muxLoop], by simp [muxLoop, cntE], by simp [muxLoop, cntC]⟩
  | succ f ih =>
    intro st data
    simp only [muxLoop]
    split
    · exact ⟨by simp, by simp [cntE], by simp [cntC]⟩
    · split
      · exact ⟨by simp, by simp [cntE], by simp [cntC]⟩
      · split
        · -- recognized type
          split
          · -- truncated payload
            refine ⟨fun _ => ⟨[], rfl, rfl, rfl⟩, fun h => absurd rfl h, ?_⟩
            simp [cntC, List.count_cons]
          · split
            · -- video
              split
              · -- mux push error
                refine ⟨fun _ => ⟨[Ev.pktBuilt 1 _ _], rfl, ?_, ?_⟩,
                  fun h => absurd rfl h, ?_⟩
                · simp [cntE, List.count_cons]
                · simp [cntC, List.count_cons]
                · simp [cntC, List.count_cons]
              · -- mux push ok: recurse
                obtain ⟨ih1, ih2, ih3⟩ := ih
                  { st with
                    firstPts := some (st.firstPts.getD (toI64 (readLE ((data.drop 1).take 8))))
                    muxC := st.muxC + 1
                    progress := st.progress + 13 + readLE ((data.drop 9).take 4) }
                  ((data.drop 13).drop (readLE ((data.drop 9).take 4)))
                refine ⟨?_, ?_, ?_⟩
                · intro h
                  obtain ⟨pre, hpre, hpe, hpc⟩ := ih1 h
                  refine ⟨Ev.pktBuilt 1 (readLE ((data.drop 1).take 8))
                      (wrapI64 (toI64 (readLE ((data.drop 1).take 8)) -
                        st.firstPts.getD (toI64 (readLE ((data.drop 1).take 8))))) ::
                    Ev.muxPushDirect (wrapI64 (toI64 (readLE ((data.drop 1).take 8)) -
                        st.firstPts.getD (toI64 (readLE ((data.drop 1).take 8))))) ::
                    Ev.onProgress (st.progress + 13 + readLE ((data.drop 9).take 4)) :: pre,
                    by rw [hpre]; simp, ?_, ?_⟩
                  · simp only [cntE, List.count_cons] at hpe ⊢
                    simp [hpe]
                  · simp only [cntC, List.count_cons] at hpc ⊢
                    simp [hpc]
                · intro h
                  have := ih2 h
                  simp [cntE, List.count_cons] at this ⊢
                  exact this
                · simp [cntC, List.count_cons] at ih3 ⊢
                  exact ih3
            · -- audio
              split
              · -- bsf push error
                refine ⟨fun _ => ⟨[Ev.pktBuilt 2 _ _], rfl, ?_, ?_⟩,
                  fun h => absurd rfl h, ?_⟩
                · simp [cntE, List.count_cons]
                · simp [cntC, List.count_cons]
                · simp [cntC, List.count_cons]
              · split
                · -- drain failed
                  rename_i hdf
                  obtain ⟨tags, htags⟩ := drainQueue_shape env _ _ _
                  rw [hdf] at htags
                  simp only [if_true] at htags
                  refine ⟨fun _ => ⟨Ev.pktBuilt 2 (readLE ((data.drop 1).take 8))
                        (wrapI64 (toI64 (readLE ((data.drop 1).take 8)) -
                          st.firstPts.getD (toI64 (readLE ((data.drop 1).take 8))))) ::
                      Ev.bsfPushEv :: tags.map Ev.muxPushFiltered, ?_, ?_, ?_⟩,
                    fun h => absurd rfl h, ?_⟩
                  · simp [htags]
                  · simp [cntE, List.count_cons, cntE_filtered]
                    have := cntE_filtered tags
                    simp [cntE] at this
                    exact this
                  · have := cntC_filtered tags
                    simp [cntC] at this ⊢
                    simp [List.count_cons, this]
                  · have h1 := cntC_filtered tags
                    have h2 := drainQueue_cntC env
                      (st.queue ++ (List.range (env.bsfOutCount st.bsfC)).map (st.tagC + ·))
                      st.takeC st.muxC
                    simp [cntC, List.count_cons, List.count_append] at h1 h2 ⊢
                    simp [h2]
                · -- drain ok: recurse
                  rename_i hdf
                  have hdf' : (drainQueue env st.takeC st.muxC
                      (st.queue ++ (List.range (env.bsfOutCount st.bsfC)).map (st.tagC + ·))).failed
                      = false := by
                    revert hdf
                    cases (drainQueue env st.takeC st.muxC
                      (st.queue ++ (List.range (env.bsfOutCount st.bsfC)).map (st.tagC + ·))).failed <;>
                      simp
                  have hde := drainQueue_cntE env
                    (st.queue ++ (List.range (env.bsfOutCount st.bsfC)).map (st.tagC + ·))
                    st.takeC st.muxC
                  rw [hdf'] at hde
                  simp only [Bool.false_eq_true, if_false] at hde
                  have hdc := drainQueue_cntC env
                    (st.queue ++ (List.range (env.bsfOutCount st.bsfC)).map (st.tagC + ·))
                    st.takeC st.muxC
                  obtain ⟨ih1, ih2, ih3⟩ := ih
                    { st with
                      firstPts := some (st.firstPts.getD (toI64 (readLE ((data.drop 1).take 8))))
                      bsfC := st.bsfC + 1
                      takeC := (drainQueue env st.takeC st.muxC
                        (st.queue ++ (List.range (env.bsfOutCount st.bsfC)).map (st.tagC + ·))).takeC
                      muxC := (drainQueue env st.takeC st.muxC
                        (st.queue ++ (List.range (env.bsfOutCount st.bsfC)).map (st.tagC + ·))).muxC
                      tagC := st.tagC + env.bsfOutCount st.bsfC
                      queue := (drainQueue env st.takeC st.muxC
                        (st.queue ++ (List.range (env.bsfOutCount st.bsfC)).map (st.tagC + ·))).queue
                      progress := st.progress + 13 + readLE ((data.drop 9).take 4) }
                    ((data.drop 13).drop (readLE ((data.drop 9).take 4)))
                  refine ⟨?_, ?_, ?_⟩
                  · intro h
                    obtain ⟨pre, hpre, hpe, hpc⟩ := ih1 h
                    refine ⟨Ev.pktBuilt 2 (readLE ((data.drop 1).take 8))
                        (wrapI64 (toI64 (readLE ((data.drop 1).take 8)) -
                          st.firstPts.getD (toI64 (readLE ((data.drop 1).take 8))))) ::
                      Ev.bsfPushEv ::
                      ((drainQueue env st.takeC st.muxC
                        (st.queue ++ (List.range (env.bsfOutCount st.bsfC)).map (st.tagC + ·))).evs ++
                        Ev.onProgress (st.progress + 13 + readLE ((data.drop 9).take 4)) :: pre),
                      by rw [hpre]; simp, ?_, ?_⟩
                    · simp [cntE, List.count_cons, List.count_append] at hde hpe ⊢
                      simp [hde, hpe]
                    · simp [cntC, List.count_cons, List.count_append] at hdc hpc ⊢
                      simp [hdc, hpc]
                  · intro h
                    have := ih2 h
                    simp [cntE, List.count_cons, List.count_append] at hde this ⊢
                    simp [hde, this]
                  · simp [cntC, List.count_cons, List.count_append] at hdc ih3 ⊢
                    simp [hdc, ih3]
        · -- unrecognized type: recurse directly
          exact ih st (data.drop 13)

/-! ## Epilogue and whole-run shape lemmas -/

theorem muxEpilogue_progressVals (env : Env) (st : MuxState) :
    progressVals (muxEpilogue env st) = [] := by
  have hdp := drainQueue_progressVals env
    (st.queue ++ (List.range env.bsfFlushOutCount).map (st.tagC + ·)) st.takeC st.muxC
  simp only [muxEpilogue]
  split
  · rfl
  · split
    · simp only [progressVals] at hdp ⊢
      simp [List.filterMap_cons, hdp]
    · split <;>
      · simp only [progressVals] at hdp ⊢
        simp [List.filterMap_cons, List.filterMap_append, hdp]

theorem muxEpilogue_builtPkts (env : Env) (st : MuxState) :
    builtPkts (muxEpilogue env st) = [] := by
  have hdb := drainQueue_builtPkts env
    (st.queue ++ (List.range env.bsfFlushOutCount).map (st.tagC + ·)) st.takeC st.muxC
  simp only [muxEpilogue]
  split
  · rfl
  · split
    · simp only [builtPkts] at hdb ⊢
      simp [List.filterMap_cons, hdb]
    · split <;>
      · simp only [builtPkts] at hdb ⊢
        simp [List.filterMap_cons, List.filterMap_append, hdb]

/-- The end-of-stream handling either errors (with no completion, the
error last) or flushes the filter, muxes the retained packets, flushes the
muxer and reports completion. -/
theorem muxEpilogue_shape (env : Env) (st : MuxState) :
    (∃ pre : List Ev, muxEpilogue env st = pre ++ [Ev.onError] ∧
      cntE pre = 0 ∧ cntC pre = 0) ∨
    (∃ tags : List Nat, muxEpilogue env st =
      Ev.bsfFlushEv :: (tags.map Ev.muxPushFiltered ++ [Ev.muxFlushEv, Ev.onComplete])) := by
  obtain ⟨tags, htags⟩ := drainQueue_shape env
    (st.queue ++ (List.range env.bsfFlushOutCount).map (st.tagC + ·)) st.takeC st.muxC
  simp only [muxEpilogue]
  split
  · exact Or.inl ⟨[], rfl, rfl, rfl⟩
  · split
    · rename_i hdf
      rw [hdf] at htags
      simp only [if_true] at htags
      refine Or.inl ⟨Ev.bsfFlushEv :: tags.map Ev.muxPushFiltered, ?_, ?_, ?_⟩
      · simp [htags]
      · have := cntE_filtered tags
        simp only [cntE, List.count_cons] at this ⊢
        simp [this]
      · have := cntC_filtered tags
        simp only [cntC, List.count_cons] at this ⊢
        simp [this]
    · rename_i hdf
      have hdf' : (drainQueue env st.takeC st.muxC
          (st.queue ++ (List.range env.bsfFlushOutCount).map (st.tagC + ·))).failed = false := by
        revert hdf
        cases (drainQueue env st.takeC st.muxC
          (st.queue ++ (List.range env.bsfFlushOutCount).map (st.tagC + ·))).failed <;> simp
      rw [hdf'] at htags
      simp only [Bool.false_eq_true, if_false, List.append_nil] at htags
      split
      · refine Or.inl ⟨Ev.bsfFlushEv :: tags.map Ev.muxPushFiltered, ?_, ?_, ?_⟩
        · simp [htags]
        · have := cntE_filtered tags
          simp only [cntE, List.count_cons] at this ⊢
          simp [this]
        · have := cntC_filtered tags
          simp only [cntC, List.count_cons] at this ⊢
          simp [this]
      · exact Or.inr ⟨tags, by simp [htags]⟩

/-- When muxer pushes cannot fail and both flushes succeed, the
end-of-stream handling completes: filter flush, retained packets, muxer
flush, completion. -/
theorem muxEpilogue_success (env : Env) (st : MuxState)
    (hm : ∀ n, env.muxPushErr n = false)
    (hf1 : env.bsfFlushErr = false) (hf2 : env.muxFlushErr = false) :
    ∃ tags : List Nat, muxEpilogue env st =
      Ev.bsfFlushEv :: (tags.map Ev.muxPushFiltered ++ [Ev.muxFlushEv, Ev.onComplete]) := by
  obtain ⟨tags, htags⟩ := drainQueue_shape env
    (st.queue ++ (List.range env.bsfFlushOutCount).map (st.tagC + ·)) st.takeC st.muxC
  have hdf := drainQueue_ok env hm
    (st.queue ++ (List.range env.bsfFlushOutCount).map (st.tagC + ·)) st.takeC st.muxC
  rw [hdf] at htags
  simp only [Bool.false_eq_true, if_false, List.append_nil] at htags
  simp only [muxEpilogue, hf1, hf2, hdf, Bool.false_eq_true, if_false]
  exact ⟨tags, by simp [htags]⟩

/-- After successful setup, `mux_video` is the loop and its epilogue. -/
theorem muxVideo_eq_full (env : Env) (cancel : Bool) (data : List Nat)
    (hs : setupOk env) :
    muxVideo env cancel data = (muxVideoFull env cancel data).1 := by
  obtain ⟨h1, h2, h3, h4, h5, h6, h7, h8⟩ := hs
  simp [muxVideo, h1, h2, h3, h4, h5, h6, h7, h8]

/-- Every `mux_video` trace has one of three shapes: no error and no
completion (cancellation), a trace ending in a single `on_error` with no
completion, or an error-free trace ending in filter flush, retained
packets, muxer flush and a single completion. -/
theorem muxVideo_shape (env : Env) (cancel : Bool) (data : List Nat) :
    (cntE (muxVideo env cancel data) = 0 ∧ cntC (muxVideo env cancel data) = 0) ∨
    (∃ pre : List Ev, muxVideo env cancel data = pre ++ [Ev.onError] ∧ cntE pre = 0 ∧
      cntC (muxVideo env cancel data) = 0) ∨
    (∃ pre : List Ev, ∃ tags : List Nat, muxVideo env cancel data =
      pre ++ Ev.bsfFlushEv :: (tags.map Ev.muxPushFiltered ++ [Ev.muxFlushEv, Ev.onComplete]) ∧
      cntE (muxVideo env cancel data) = 0 ∧ cntC pre = 0) := by
  obtain ⟨inv1, inv2, inv3⟩ := muxLoop_inv env cancel (data.length + 1) initState data
  simp only [muxVideo]
  split
  · exact Or.inr (Or.inl ⟨[], rfl, rfl, rfl⟩)
  split
  · exact Or.inr (Or.inl ⟨[], rfl, rfl, rfl⟩)
  split
  · exact Or.inr (Or.inl ⟨[], rfl, rfl, rfl⟩)
  split
  · exact Or.inr (Or.inl ⟨[], rfl, rfl, rfl⟩)
  split
  · exact Or.inr (Or.inl ⟨[], rfl, rfl, rfl⟩)
  split
  · exact Or.inr (Or.inl ⟨[], rfl, rfl, rfl⟩)
  split
  · exact Or.inr (Or.inl ⟨[], rfl, rfl, rfl⟩)
  split
  · exact Or.inr (Or.inl ⟨[], rfl, rfl, rfl⟩)
  simp only [muxVideoFull]
  rcases hoc : (muxLoop env cancel (data.length + 1) initState data).2.2 with _ | _ | _
  · -- normal end
    dsimp only
    have hle := inv2 (by rw [hoc]; simp)
    have hlc := inv3
    rcases muxEpilogue_shape env (muxLoop env cancel (data.length + 1) initState data).2.1 with
      ⟨preE, hpe, heE, hcE⟩ | ⟨tags, htags⟩
    · refine Or.inr (Or.inl ⟨(muxLoop env cancel (data.length + 1) initState data).1 ++ preE,
        ?_, ?_, ?_⟩)
      · simp [hpe]
      · simp [cntE_append, hle, heE]
      · rw [cntC_append, hpe, cntC_append]
        have h0 : cntC [Ev.onError] = 0 := rfl
        omega
    · refine Or.inr (Or.inr ⟨(muxLoop env cancel (data.length + 1) initState data).1, tags,
        ?_, ?_, ?_⟩)
      · simp [htags]
      · have hfe := cntE_filtered tags
        simp only [cntE, List.count_cons, List.count_append] at hfe hle ⊢
        simp [htags, List.count_append, List.count_cons, hfe, hle]
      · exact hlc
  · -- errored
    dsimp only
    obtain ⟨pre, hpre, hpe, hpc⟩ := inv1 hoc
    refine Or.inr (Or.inl ⟨pre, hpre, hpe, ?_⟩)
    rw [hpre, cntC_append]
    have h0 : cntC [Ev.onError] = 0 := rfl
    omega
  · -- cancelled
    dsimp only
    have hle := inv2 (by rw [hoc]; simp)
    exact Or.inl ⟨hle, inv3⟩

/-! ## Whole-run corollaries for encoded packet streams -/

theorem muxLoop_short (env : Env) (cancel : Bool) (fuel : Nat) (st : MuxState)
    (data : List Nat) (h : data.length < 13) :
    muxLoop env cancel (fuel + 1) st data = ([], st, .normalEnd) := by
  simp [muxLoop, h]

/-- A recognized header followed by fewer payload bytes than it declares
makes the loop report `on_error` and end with the errored outcome. -/
theorem muxLoop_truncated (env : Env) (st : MuxState) (fuel : Nat)
    (t pv ln : Nat) (short : List Nat) (ht : t = 1 ∨ t = 2) (hln : ln < 2 ^ 32)
    (hs : short.length < ln) :
    muxLoop env false (fuel + 1) st (hdrBytes t pv ln ++ short) =
      ([Ev.onError], st, .errored) := by
  have hc : ¬((hdrBytes t pv ln ++ short).length < 13) := by
    rw [hdr_append_length]; omega
  have hmod : ln % 2 ^ 32 = ln := Nat.mod_eq_of_lt hln
  simp only [muxLoop, hc, if_false, Bool.false_eq_true, hdr_append_headD, hdr_append_pts,
    hdr_append_len, hdr_append_drop13, readLE_leBytes8, readLE_leBytes4, hmod, ht, hs,
    ite_true, if_true]

/-- Running the job on the byte image of a recognized, well-formed packet
stream followed by a fragment shorter than one header: the loop processes
every packet, the fragment ends it normally, and the epilogue runs. -/
theorem muxVideoFull_stream (env : Env) (hm : ∀ n, env.muxPushErr n = false)
    (hb : ∀ n, env.bsfPushErr n = false) (ps : List Pkt) (frag : List Nat)
    (hrec : ∀ p ∈ ps, p.ptype = 1 ∨ p.ptype = 2)
    (hwf : ∀ p ∈ ps, p.payload.length < 2 ^ 32) (hfr : frag.length < 13) :
    ∃ evs : List Ev, ∃ st' : MuxState,
      muxVideoFull env false (encodeStream ps ++ frag) =
        (evs ++ muxEpilogue env st', st', .normalEnd) ∧
      progressVals evs = partialSumsFrom 0 (ps.map fun p => 13 + p.payload.length) ∧
      builtPkts evs = builtOf none ps ∧
      cntE evs = 0 ∧ cntC evs = 0 ∧
      st'.firstPts = nextFirst none ps := by
  obtain ⟨evs, st', heq, hpv, hbp, he0, hc0, hfp, hpr⟩ :=
    muxLoop_append env hm hb ps initState frag ((encodeStream ps ++ frag).length + 1)
      hrec hwf (by omega)
  have htail : muxLoop env false (frag.length + 1) st' frag = ([], st', .normalEnd) :=
    muxLoop_short env false frag.length st' frag hfr
  rw [htail] at heq
  refine ⟨evs, st', ?_, by simpa [initState] using hpv, by simpa [initState] using hbp,
    he0, hc0, by simpa [initState] using hfp⟩
  simp only [muxVideoFull, heq]
  simp

/-- Running the job on a recognized, well-formed packet stream followed by
a recognized header whose declared payload is truncated: the loop
processes every packet, then reports a single `on_error` and ends errored
(so no epilogue runs). -/
theorem muxVideoFull_trunc (env : Env) (hm : ∀ n, env.muxPushErr n = false)
    (hb : ∀ n, env.bsfPushErr n = false) (ps : List Pkt)
    (t pv ln : Nat) (short : List Nat)
    (hrec : ∀ p ∈ ps, p.ptype = 1 ∨ p.ptype = 2)
    (hwf : ∀ p ∈ ps, p.payload.length < 2 ^ 32)
    (ht : t = 1 ∨ t = 2) (hln : ln < 2 ^ 32) (hs : short.length < ln) :
    ∃ evs : List Ev, ∃ st' : MuxState,
      muxVideoFull env false (encodeStream ps ++ (hdrBytes t pv ln ++ short)) =
        (evs ++ [Ev.onError], st', .errored) ∧
      progressVals evs = partialSumsFrom 0 (ps.map fun p => 13 + p.payload.length) ∧
      cntE evs = 0 ∧ cntC evs = 0 := by
  obtain ⟨evs, st', heq, hpv, hbp, he0, hc0, hfp, hpr⟩ :=
    muxLoop_append env hm hb ps initState (hdrBytes t pv ln ++ short)
      ((encodeStream ps ++ (hdrBytes t pv ln ++ short)).length + 1) hrec hwf (by omega)
  have htail : muxLoop env false ((hdrBytes t pv ln ++ short).length + 1) st'
      (hdrBytes t pv ln ++ short) = ([Ev.onError], st', .errored) :=
    muxLoop_truncated env st' (hdrBytes t pv ln ++ short).length t pv ln short ht hln hs
  rw [htail] at heq
  refine ⟨evs, st', ?_, by simpa [initState] using hpv, he0, hc0⟩
  simp only [muxVideoFull, heq]

/-! ## Sum and timeline helpers -/

theorem partialSumsFrom_length (a : Nat) (xs : List Nat) :
    (partialSumsFrom a xs).length = xs.length := by
  induction xs generalizing a with
  | nil => rfl
  | cons x xs ih => simp [partialSumsFrom, ih]

theorem partialSumsFrom_getLast (a : Nat) (xs : List Nat) (h : xs ≠ []) :
    (partialSumsFrom a xs).getLast? = some (a + xs.sum) := by
  induction xs generalizing a with
  | nil => exact absurd rfl h
  | cons x xs ih =>
    rcases xs with _ | ⟨y, ys⟩
    · simp [partialSumsFrom]
    · have hih := ih (a + x) (by simp)
      rw [partialSumsFrom] at hih
      rw [partialSumsFrom, partialSumsFrom, List.getLast?_cons_cons, hih]
      simp only [Option.some.injEq, List.sum_cons]
      omega

theorem encodeStream_length (ps : List Pkt) :
    (encodeStream ps).length = (ps.map fun p => 13 + p.payload.length).sum := by
  induction ps with
  | nil => rfl
  | cons p ps ih => simp [encodeStream, encodePkt_length, ih]

theorem builtOf_some (o : Int) (ps : List Pkt) :
    builtOf (some o) ps =
      ps.map fun p => (p.ptype, p.pts % 2 ^ 64, wrapI64 (toI64 p.pts - o)) := by
  induction ps generalizing o with
  | nil => rfl
  | cons p ps ih => simp [builtOf, ih]

theorem wrapI64_zero : wrapI64 0 = 0 :=
  wrapI64_eq_self 0 (by norm_num) (by norm_num)

theorem builtOf_none_cons (p : Pkt) (ps : List Pkt) :
    builtOf none (p :: ps) =
      (p.ptype, p.pts % 2 ^ 64, 0) ::
        ps.map fun q => (q.ptype, q.pts % 2 ^ 64, wrapI64 (toI64 q.pts - toI64 p.pts)) := by
  rw [builtOf, builtOf_some]
  simp [wrapI64_zero]

/-! ## The claims -/

theorem videoRun_cntE (env : Env) (c : Bool) (total offset : Nat) (data : List Nat) :
    cntE (videoRun env c total offset data) = cntE (muxVideo env c data) := by
  simp [videoRun, cntE, List.count_cons]

theorem videoRun_cntC (env : Env) (c : Bool) (total offset : Nat) (data : List Nat) :
    cntC (videoRun env c total offset data) = cntC (muxVideo env c data) := by
  simp [videoRun, cntC, List.count_cons]

theorem videoRun_progressVals (env : Env) (c : Bool) (total offset : Nat) (data : List Nat) :
    progressVals (videoRun env c total offset data) = progressVals (muxVideo env c data) := by
  simp [videoRun, progressVals, List.filterMap_cons]

theorem videoRun_builtPkts (env : Env) (c : Bool) (total offset : Nat) (data : List Nat) :
    builtPkts (videoRun env c total offset data) = builtPkts (muxVideo env c data) := by
  simp [videoRun, builtPkts, List.filterMap_cons]

/-- C1 (code_bug): the spec requires the orchestrator to dispatch on the
file-type byte (1 = video job, 2 = image job, otherwise an
unknown-file-type error carrying the byte), but `decrypt`
(decrypt.rs lines 48-66) reads the byte into `file_type` and never
consults it: with a well-formed secondary header, byte 7 and byte 2 both
produce a video job, `build_image_decryption_job` is never reached, and no
error mentioning the byte can be produced (the embedded result type has no
such alternative because the source has no such code path). The result is
the same for every value of the leading byte. -/
theorem C1_decrypt_ignores_file_type :
    decryptTail ⟨fun _ => true, fun _ => true⟩ 0 [7, 5, 0, 0, 0] = OrchResult.videoJob [] 5 ∧
    decryptTail ⟨fun _ => true, fun _ => true⟩ 0 [2, 5, 0, 0, 0] = OrchResult.videoJob [] 5 ∧
    ∀ (b b' : Nat) (tl : List Nat) (env : OrchEnv) (hl : Nat),
      decryptTail env hl (b :: tl) = decryptTail env hl (b' :: tl) := by
  refine ⟨by decide, by decide, ?_⟩
  intro b b' tl env hl
  simp [decryptTail]

/-- C7 (code_bug): the spec requires `offset_to_data < 5` to fail with a
malformed-stream error before any payload byte is read, but decrypt.rs
line 53 computes `offset_to_data as usize - 5` unchecked: for
`offset_to_data = 4` the subtraction wraps to `2 ^ 64 - 1` (release-mode;
debug builds panic), and the orchestrator then attempts to read that many
metadata bytes, failing with a plain read error, not a malformed-stream
check. -/
theorem C7_offset_underflow_wraps :
    metadataLenOf 4 = 2 ^ 64 - 1 ∧ metadataLenOf 0 = 2 ^ 64 - 5 ∧
    decryptTail ⟨fun _ => true, fun _ => true⟩ 0 [1, 4, 0, 0, 0] = OrchResult.readFail := by
  refine ⟨by decide, by decide, by decide⟩

/-- C2 counterexample: on the payload consisting of an unrecognized packet
(type 3, declared length 2) followed by its 2 payload bytes and a
well-formed video packet, the spec-aligned reading finds the video packet
at its correct boundary, but the loop builds and muxes nothing (the two
payload bytes are misread as the next header) and still completes: the
stream desynchronized. -/
theorem C2_desync_counterexample :
    builtPkts (muxVideo happyEnv false
      ([3, 0, 0, 0, 0, 0, 0, 0, 0, 2, 0, 0, 0] ++ ([170, 187] ++
       [1, 0, 0, 0, 0, 0, 0, 0, 0, 0, 0, 0, 0]))) = [] ∧
    specPackets ([3, 0, 0, 0, 0, 0, 0, 0, 0, 2, 0, 0, 0] ++ ([170, 187] ++
       [1, 0, 0, 0, 0, 0, 0, 0, 0, 0, 0, 0, 0])) = [(3, 0, 2), (1, 0, 0)] ∧
    cntE (muxVideo happyEnv false
      ([3, 0, 0, 0, 0, 0, 0, 0, 0, 2, 0, 0, 0] ++ ([170, 187] ++
       [1, 0, 0, 0, 0, 0, 0, 0, 0, 0, 0, 0, 0]))) = 0 := by
  decide

/-- C2 (amended): on a packet whose type byte is neither 1 nor 2, the
demux loop continues without failing, but it does not consume the declared
payload: the reader is positioned immediately after the 13-byte header
(at the packet's payload bytes), so the stream desynchronizes whenever the
declared payload length is nonzero. -/
theorem C2_unrecognized_skip (env : Env) (st : MuxState) (fuel : Nat) (p : Pkt)
    (s : List Nat) (h1 : p.ptype ≠ 1) (h2 : p.ptype ≠ 2) :
    muxLoop env false (fuel + 1) st (encodePkt p ++ s) =
      muxLoop env false fuel st (p.payload ++ s) :=
  muxLoop_skip_step env st fuel p s h1 h2

theorem C2_unrecognized_skip_witness :
    ((3 : Nat) ≠ 1 ∧ (3 : Nat) ≠ 2) ∧
    muxLoop happyEnv false 2 initState (encodePkt ⟨3, 0, [170, 187]⟩ ++ []) =
      muxLoop happyEnv false 1 initState ([170, 187] ++ []) :=
  ⟨⟨by decide, by decide⟩,
   C2_unrecognized_skip happyEnv initState 1 ⟨3, 0, [170, 187]⟩ [] (by decide) (by decide)⟩

/-- C4 counterexample: on a payload whose first packet has unrecognized
type 3 and PTS 100 and whose second packet is a video packet with PTS 200,
the recorded origin is 200 — the PTS of the first recognized packet — not
100, the PTS of the first packet of the stream; the muxed packet is
stamped 0, whereas the claim's origin (100) would stamp it 200 - 100 ≠ 0. -/
theorem C4_unrecognized_first_packet :
    (muxVideoFull happyEnv false (encodeStream [⟨3, 100, []⟩, ⟨1, 200, []⟩])).2.1.firstPts
      = some 200 ∧
    builtPkts (muxVideoFull happyEnv false (encodeStream [⟨3, 100, []⟩, ⟨1, 200, []⟩])).1
      = [(1, 200, 0)] ∧
    (200 : Int) - 100 ≠ 0 := by
  decide

/-- C5 counterexample: a payload consisting of one unrecognized packet
(13 bytes) is processed to completion with zero `on_progress` calls: the
unrecognized packet neither increments the counter nor triggers a report,
though the claim requires a report of 13. -/
theorem C5_unrecognized_no_progress :
    progressVals (muxVideo happyEnv false (encodeStream [⟨3, 0, []⟩])) = [] ∧
    (encodeStream [⟨3, 0, []⟩]).length = 13 ∧
    cntC (muxVideo happyEnv false (encodeStream [⟨3, 0, []⟩])) = 1 := by
  decide

/-- C6 counterexample: with the cancellation flag set before the run and
an empty payload, the loop ends normally before ever consulting the flag
(the flag is only checked after a successful header read), the filter and
muxer are flushed and `on_complete` is called — not zero callbacks. -/
theorem C6_cancel_empty_payload :
    cntC (videoRun happyEnv true 0 0 []) = 1 ∧ cntE (videoRun happyEnv true 0 0 []) = 0 := by
  decide

/-- C8 counterexample: in an environment where the first `audio_bsf.take`
call fails, a single audio packet is processed, the take failure silently
ends the drain (the retained packet is only muxed at flush time), no
`on_error` is ever reported, and the job completes — the claim requires a
take failure to be reported exactly once and to terminate the job. -/
theorem C8_take_error_swallowed :
    cntE (muxVideo { happyEnv with
        bsfOutCount := fun k => if k = 0 then 1 else 0
        bsfTakeErr := fun k => k == 0 } false [2, 0, 0, 0, 0, 0, 0, 0, 0, 0, 0, 0, 0]) = 0 ∧
    cntC (muxVideo { happyEnv with
        bsfOutCount := fun k => if k = 0 then 1 else 0
        bsfTakeErr := fun k => k == 0 } false [2, 0, 0, 0, 0, 0, 0, 0, 0, 0, 0, 0, 0]) = 1 ∧
    ({ happyEnv with
        bsfOutCount := fun k => if k = 0 then 1 else 0
        bsfTakeErr := fun k => k == 0 } : Env).bsfTakeErr 0 = true := by
  decide

/-- C10 (confirmed): `ImageDecryptionJob::run` never calls `on_progress`
and never reads the cancellation flag (its trace is the same for any flag
value); it calls `set_total_file_size` and `set_offset`, then makes
exactly one further sink call: `on_error` if file creation or the copy
fails, `on_complete` otherwise. -/
theorem C10_image_job_sink_calls (env : ImgEnv) (c c' : Bool) (total offset : Nat) :
    progressVals (imageRun env c total offset) = [] ∧
    imageRun env c total offset = imageRun env c' total offset ∧
    imageRun env c total offset =
      Ev.setTotal total :: Ev.setOffset offset ::
        (if env.createErr || env.copyErr then [Ev.onError] else [Ev.onComplete]) := by
  rcases env with ⟨ce, cpe⟩
  cases ce <;> cases cpe <;> simp [imageRun, progressVals]



/-- C4 (amended): in the video job the timeline origin is the absolute PTS
of the first recognized (video or audio) packet — unrecognized packets are
skipped before `first_pts` is set — and every packet the loop builds is
stamped with its PTS minus that origin (in wrapping signed 64-bit
arithmetic), so the first built packet's timestamp is exactly zero. -/
theorem C4_timeline_origin (env : Env) (p0 : Pkt) (ps : List Pkt)
    (hm : ∀ n, env.muxPushErr n = false) (hb : ∀ n, env.bsfPushErr n = false)
    (hrec : ∀ p ∈ p0 :: ps, p.ptype = 1 ∨ p.ptype = 2)
    (hwf : ∀ p ∈ p0 :: ps, p.payload.length < 2 ^ 32) (hs : setupOk env) :
    (muxVideoFull env false (encodeStream (p0 :: ps))).2.1.firstPts = some (toI64 p0.pts) ∧
    builtPkts (muxVideo env false (encodeStream (p0 :: ps))) =
      (p0.ptype, p0.pts % 2 ^ 64, 0) ::
        (ps.map fun q => (q.ptype, q.pts % 2 ^ 64, wrapI64 (toI64 q.pts - toI64 p0.pts))) := by
  obtain ⟨evs, st', heq, hpv, hbp, he0, hc0, hfp⟩ :=
    muxVideoFull_stream env hm hb (p0 :: ps) [] hrec hwf (by simp)
  rw [List.append_nil] at heq
  constructor
  · rw [heq]
    simpa [nextFirst] using hfp
  · rw [muxVideo_eq_full env false (encodeStream (p0 :: ps)) hs, heq]
    simp only [builtPkts_append, muxEpilogue_builtPkts, List.append_nil]
    rw [hbp, builtOf_none_cons]

theorem C4_timeline_origin_witness :
    (muxVideoFull happyEnv false (encodeStream [⟨2, 7, []⟩, ⟨1, 3, [1, 2]⟩])).2.1.firstPts
      = some (toI64 (Pkt.mk 2 7 []).pts) ∧
    builtPkts (muxVideo happyEnv false (encodeStream [⟨2, 7, []⟩, ⟨1, 3, [1, 2]⟩])) =
      ((Pkt.mk 2 7 []).ptype, (Pkt.mk 2 7 []).pts % 2 ^ 64, 0) ::
        ([⟨1, 3, [1, 2]⟩] : List Pkt).map (fun q =>
          (q.ptype, q.pts % 2 ^ 64, wrapI64 (toI64 q.pts - toI64 (Pkt.mk 2 7 []).pts))) :=
  C4_timeline_origin happyEnv ⟨2, 7, []⟩ [⟨1, 3, [1, 2]⟩] (fun _ => rfl) (fun _ => rfl)
    (by decide) (by decide) ⟨rfl, rfl, rfl, rfl, rfl, rfl, rfl, rfl⟩

/-- C5 (amended): only recognized packets advance the progress counter:
after each video or audio packet the counter grows by 13 plus the declared
payload length and is reported via `on_progress` (unrecognized packets
contribute nothing and trigger no report); over a payload made entirely of
recognized packets the reported values are the partial sums, and the final
report equals the total byte length of the payload. -/
theorem C5_progress_totals (env : Env) (ps : List Pkt) (total offset : Nat)
    (hm : ∀ n, env.muxPushErr n = false) (hb : ∀ n, env.bsfPushErr n = false)
    (hrec : ∀ p ∈ ps, p.ptype = 1 ∨ p.ptype = 2)
    (hwf : ∀ p ∈ ps, p.payload.length < 2 ^ 32) (hs : setupOk env) :
    progressVals (videoRun env false total offset (encodeStream ps)) =
      partialSumsFrom 0 (ps.map fun p => 13 + p.payload.length) ∧
    (ps ≠ [] → (progressVals (videoRun env false total offset (encodeStream ps))).getLast?
      = some (encodeStream ps).length) := by
  obtain ⟨evs, st', heq, hpv, hbp, he0, hc0, hfp⟩ :=
    muxVideoFull_stream env hm hb ps [] hrec hwf (by simp)
  rw [List.append_nil] at heq
  have hmain : progressVals (videoRun env false total offset (encodeStream ps)) =
      partialSumsFrom 0 (ps.map fun p => 13 + p.payload.length) := by
    rw [videoRun_progressVals, muxVideo_eq_full env false (encodeStream ps) hs, heq]
    simp only [progressVals_append, muxEpilogue_progressVals, List.append_nil]
    exact hpv
  refine ⟨hmain, fun hne => ?_⟩
  rw [hmain, partialSumsFrom_getLast 0 _ (by simpa using hne), encodeStream_length]
  simp

theorem C5_progress_totals_witness :
    progressVals (videoRun happyEnv false 0 0 (encodeStream [⟨1, 5, [7]⟩, ⟨2, 9, []⟩])) =
      partialSumsFrom 0 (([⟨1, 5, [7]⟩, ⟨2, 9, []⟩] : List Pkt).map
        fun p => 13 + p.payload.length) ∧
    (([⟨1, 5, [7]⟩, ⟨2, 9, []⟩] : List Pkt) ≠ [] →
      (progressVals (videoRun happyEnv false 0 0
        (encodeStream [⟨1, 5, [7]⟩, ⟨2, 9, []⟩]))).getLast?
        = some (encodeStream [⟨1, 5, [7]⟩, ⟨2, 9, []⟩]).length) :=
  C5_progress_totals happyEnv [⟨1, 5, [7]⟩, ⟨2, 9, []⟩] 0 0 (fun _ => rfl) (fun _ => rfl)
    (by decide) (by decide) ⟨rfl, rfl, rfl, rfl, rfl, rfl, rfl, rfl⟩

/-- C6 (amended): the cancellation flag is consulted only after each
successful 13-byte header read. With the flag set before the run, a
payload containing at least one full header produces zero calls to
`on_progress`, `on_complete` and `on_error` (the run's only sink calls
are `set_total_file_size` and `set_offset`); but a payload shorter than
one header — including the empty one — never reaches the check: the loop
ends normally and `on_complete` is still called once. -/
theorem C6_cancel_before_loop (env : Env) (data : List Nat) (total offset : Nat)
    (hs : setupOk env) :
    (13 ≤ data.length → videoRun env true total offset data =
      [Ev.setTotal total, Ev.setOffset offset]) ∧
    (data.length < 13 → (∀ n, env.muxPushErr n = false) → env.bsfFlushErr = false →
      env.muxFlushErr = false →
      cntC (videoRun env true total offset data) = 1 ∧
      cntE (videoRun env true total offset data) = 0) := by
  constructor
  · intro h13
    have hloop : muxLoop env true (data.length + 1) initState data =
        ([], initState, .cancelled) := by
      have hc : ¬(data.length < 13) := by omega
      simp [muxLoop, hc]
    simp [videoRun, muxVideo_eq_full env true data hs, muxVideoFull, hloop]
  · intro hshort hm hf1 hf2
    have hloop : muxLoop env true (data.length + 1) initState data =
        ([], initState, .normalEnd) :=
      muxLoop_short env true data.length initState data hshort
    obtain ⟨tags, htags⟩ := muxEpilogue_success env initState hm hf1 hf2
    rw [videoRun_cntC, videoRun_cntE, muxVideo_eq_full env true data hs]
    simp only [muxVideoFull, hloop]
    constructor
    · have h1 := cntC_filtered tags
      simp only [cntC, List.count_cons, List.count_append] at h1 ⊢
      simp [htags, List.count_cons, List.count_append, h1]
    · have h1 := cntE_filtered tags
      simp only [cntE, List.count_cons, List.count_append] at h1 ⊢
      simp [htags, List.count_cons, List.count_append, h1]

theorem C6_cancel_before_loop_witness :
    (13 ≤ ([0, 0, 0, 0, 0, 0, 0, 0, 0, 0, 0, 0, 0] : List Nat).length →
      videoRun happyEnv true 5 6 [0, 0, 0, 0, 0, 0, 0, 0, 0, 0, 0, 0, 0] =
        [Ev.setTotal 5, Ev.setOffset 6]) ∧
    (([0, 0, 0, 0, 0, 0, 0, 0, 0, 0, 0, 0, 0] : List Nat).length < 13 →
      (∀ n, happyEnv.muxPushErr n = false) → happyEnv.bsfFlushErr = false →
      happyEnv.muxFlushErr = false →
      cntC (videoRun happyEnv true 5 6 [0, 0, 0, 0, 0, 0, 0, 0, 0, 0, 0, 0, 0]) = 1 ∧
      cntE (videoRun happyEnv true 5 6 [0, 0, 0, 0, 0, 0, 0, 0, 0, 0, 0, 0, 0]) = 0) :=
  C6_cancel_before_loop happyEnv [0, 0, 0, 0, 0, 0, 0, 0, 0, 0, 0, 0, 0] 5 6
    ⟨rfl, rfl, rfl, rfl, rfl, rfl, rfl, rfl⟩



/-- C3 counterexample: a payload consisting of a single byte — a packet
header truncated after 1 of its 13 bytes — produces no `on_error` at all:
the loop ends as if at clean end-of-stream, the flushes run and
`on_complete` is invoked once, contradicting the claim that `run` invokes
`on_error` exactly once and never `on_complete`. -/
theorem C3_midheader_completes :
    cntE (videoRun happyEnv false 0 0 [1]) = 0 ∧
    cntC (videoRun happyEnv false 0 0 [1]) = 1 ∧
    ([1] : List Nat).length < 13 := by
  decide

/-- C3 (amended): `read_exact` reports mid-header truncation and clean
end-of-stream identically, and the `while let Ok(())` loop head treats
both as the normal end of the loop. A payload truncated inside a 13-byte
header therefore produces no `on_error` at all: the filter and muxer are
flushed and `on_complete` is invoked once (no `on_progress` is reported
for the partial fragment). Only truncation inside a recognized packet's
declared payload produces `on_error`, exactly once, with no completion. -/
theorem C3_truncation_behavior (env : Env) (ps : List Pkt) (total offset : Nat)
    (hm : ∀ n, env.muxPushErr n = false) (hb : ∀ n, env.bsfPushErr n = false)
    (hrec : ∀ p ∈ ps, p.ptype = 1 ∨ p.ptype = 2)
    (hwf : ∀ p ∈ ps, p.payload.length < 2 ^ 32) (hs : setupOk env) :
    (∀ frag : List Nat, frag.length < 13 →
      env.bsfFlushErr = false → env.muxFlushErr = false →
      cntE (videoRun env false total offset (encodeStream ps ++ frag)) = 0 ∧
      cntC (videoRun env false total offset (encodeStream ps ++ frag)) = 1 ∧
      (progressVals (videoRun env false total offset (encodeStream ps ++ frag))).length
        = ps.length) ∧
    (∀ (t pv ln : Nat) (short : List Nat), (t = 1 ∨ t = 2) → ln < 2 ^ 32 →
      short.length < ln →
      cntE (videoRun env false total offset
        (encodeStream ps ++ (hdrBytes t pv ln ++ short))) = 1 ∧
      cntC (videoRun env false total offset
        (encodeStream ps ++ (hdrBytes t pv ln ++ short))) = 0 ∧
      (progressVals (videoRun env false total offset
        (encodeStream ps ++ (hdrBytes t pv ln ++ short)))).length = ps.length) := by
  constructor
  · intro frag hfr hf1 hf2
    obtain ⟨evs, st', heq, hpv, hbp, he0, hc0, hfp⟩ :=
      muxVideoFull_stream env hm hb ps frag hrec hwf hfr
    obtain ⟨tags, htags⟩ := muxEpilogue_success env st' hm hf1 hf2
    rw [videoRun_cntE, videoRun_cntC, videoRun_progressVals,
      muxVideo_eq_full env false _ hs, heq]
    dsimp only
    refine ⟨?_, ?_, ?_⟩
    · have h1 := cntE_filtered tags
      simp only [cntE, List.count_append, List.count_cons] at h1 he0 ⊢
      simp [htags, List.count_append, List.count_cons, h1, he0]
    · have h1 := cntC_filtered tags
      simp only [cntC, List.count_append, List.count_cons] at h1 hc0 ⊢
      simp [htags, List.count_append, List.count_cons, h1, hc0]
    · rw [progressVals_append, muxEpilogue_progressVals, List.append_nil, hpv,
        partialSumsFrom_length, List.length_map]
  · intro t pv ln short ht hln hshort
    obtain ⟨evs, st', heq, hpv, he0, hc0⟩ :=
      muxVideoFull_trunc env hm hb ps t pv ln short hrec hwf ht hln hshort
    rw [videoRun_cntE, videoRun_cntC, videoRun_progressVals,
      muxVideo_eq_full env false _ hs, heq]
    dsimp only
    refine ⟨?_, ?_, ?_⟩
    · simp only [cntE, List.count_append, List.count_cons] at he0 ⊢
      simp [List.count_append, List.count_cons, he0, cntE]
    · simp only [cntC, List.count_append, List.count_cons] at hc0 ⊢
      simp [List.count_append, List.count_cons, hc0, cntC]
    · rw [progressVals_append, hpv]
      have : progressVals [Ev.onError] = [] := rfl
      rw [this, List.append_nil, partialSumsFrom_length, List.length_map]

theorem C3_truncation_behavior_witness :
    (∀ frag : List Nat, frag.length < 13 →
      happyEnv.bsfFlushErr = false → happyEnv.muxFlushErr = false →
      cntE (videoRun happyEnv false 0 0 (encodeStream [⟨1, 0, []⟩] ++ frag)) = 0 ∧
      cntC (videoRun happyEnv false 0 0 (encodeStream [⟨1, 0, []⟩] ++ frag)) = 1 ∧
      (progressVals (videoRun happyEnv false 0 0
        (encodeStream [⟨1, 0, []⟩] ++ frag))).length = ([⟨1, 0, []⟩] : List Pkt).length) ∧
    (∀ (t pv ln : Nat) (short : List Nat), (t = 1 ∨ t = 2) → ln < 2 ^ 32 →
      short.length < ln →
      cntE (videoRun happyEnv false 0 0
        (encodeStream [⟨1, 0, []⟩] ++ (hdrBytes t pv ln ++ short))) = 1 ∧
      cntC (videoRun happyEnv false 0 0
        (encodeStream [⟨1, 0, []⟩] ++ (hdrBytes t pv ln ++ short))) = 0 ∧
      (progressVals (videoRun happyEnv false 0 0
        (encodeStream [⟨1, 0, []⟩] ++ (hdrBytes t pv ln ++ short)))).length
        = ([⟨1, 0, []⟩] : List Pkt).length) :=
  C3_truncation_behavior happyEnv [⟨1, 0, []⟩] 0 0 (fun _ => rfl) (fun _ => rfl)
    (by decide) (by decide) ⟨rfl, rfl, rfl, rfl, rfl, rfl, rfl, rfl⟩

/-- C8 (amended): a failure of the audio filter's construction,
configuration or push — or of either flush or a muxer push — is reported
via `on_error` exactly once and terminates the job (the error is the last
event and no completion follows); but a failure of the filter's `take` is
not reported at all: it silently ends the current drain loop and the job
continues (see the counterexample). When the job completes, its trace ends
with the filter flush, the muxing of the retained filter packets, the
muxer flush and a single `on_complete`, in that order, and contains no
error. -/
theorem C8_filter_error_handling (env : Env) (cancel : Bool) (data : List Nat) :
    (env.channelLayoutNone = false → env.bsfCreateErr = true →
      muxVideo env cancel data = [Ev.onError]) ∧
    (env.channelLayoutNone = false → env.bsfCreateErr = false → env.bsfSetParamsErr = true →
      muxVideo env cancel data = [Ev.onError]) ∧
    cntE (muxVideo env cancel data) ≤ 1 ∧
    (1 ≤ cntE (muxVideo env cancel data) →
      (∃ pre : List Ev, muxVideo env cancel data = pre ++ [Ev.onError] ∧ cntE pre = 0) ∧
      cntC (muxVideo env cancel data) = 0) ∧
    (1 ≤ cntC (muxVideo env cancel data) →
      (∃ pre : List Ev, ∃ tags : List Nat, muxVideo env cancel data =
        pre ++ Ev.bsfFlushEv :: (tags.map Ev.muxPushFiltered ++
          [Ev.muxFlushEv, Ev.onComplete])) ∧
      cntE (muxVideo env cancel data) = 0) := by
  have h12 : (env.channelLayoutNone = false → env.bsfCreateErr = true →
      muxVideo env cancel data = [Ev.onError]) ∧
      (env.channelLayoutNone = false → env.bsfCreateErr = false →
        env.bsfSetParamsErr = true → muxVideo env cancel data = [Ev.onError]) :=
    ⟨fun h1 h2 => by simp [muxVideo, h1, h2],
     fun h1 h2 h3 => by simp [muxVideo, h1, h2, h3]⟩
  refine ⟨h12.1, h12.2, ?_, ?_, ?_⟩ <;>
    rcases muxVideo_shape env cancel data with ⟨he, hc⟩ | ⟨pre, hp, hpe, hc⟩ |
      ⟨pre, tags, hp, he, hcp⟩
  · omega
  · have heT : cntE (muxVideo env cancel data) = 1 := by
      rw [hp, cntE_append, hpe]
      rfl
    omega
  · omega
  · omega
  · intro _
    exact ⟨⟨pre, hp, hpe⟩, hc⟩
  · intro h
    omega
  · intro h
    omega
  · intro h
    rw [hc] at h
    omega
  · intro _
    exact ⟨⟨pre, tags, hp⟩, he⟩

theorem C8_filter_error_handling_witness :
    muxVideo { happyEnv with bsfCreateErr := true } false [] = [Ev.onError] ∧
    ((∃ pre : List Ev, ∃ tags : List Nat, muxVideo happyEnv false [] =
        pre ++ Ev.bsfFlushEv :: (tags.map Ev.muxPushFiltered ++
          [Ev.muxFlushEv, Ev.onComplete])) ∧
      cntE (muxVideo happyEnv false []) = 0) :=
  ⟨(C8_filter_error_handling { happyEnv with bsfCreateErr := true } false []).1 rfl rfl,
   (C8_filter_error_handling happyEnv false []).2.2.2.2 (by decide)⟩

/-- C9 (confirmed): the 8-byte PTS is parsed as an unsigned little-endian
64-bit integer and reinterpreted as a signed two's-complement value
(`toI64`); the timestamp attached to every packet handed to the muxer or
filter is the wrapped signed difference from the recorded origin; a PTS at
or above `2 ^ 63` reinterprets to a negative value (so such a first
recognized packet makes the origin negative); a recognized packet whose
absolute (unsigned) PTS is below the recorded origin gets a negative
timestamp; and the timestamp arithmetic is arithmetic modulo `2 ^ 64`
(`wrapI64` is invariant under shifts by multiples of `2 ^ 64`). -/
theorem C9_signed_pts_arithmetic (env : Env) (p0 : Pkt) (ps : List Pkt)
    (hm : ∀ n, env.muxPushErr n = false) (hb : ∀ n, env.bsfPushErr n = false)
    (hrec : ∀ p ∈ p0 :: ps, p.ptype = 1 ∨ p.ptype = 2)
    (hwf : ∀ p ∈ p0 :: ps, p.payload.length < 2 ^ 32) (hs : setupOk env) :
    (muxVideoFull env false (encodeStream (p0 :: ps))).2.1.firstPts = some (toI64 p0.pts) ∧
    builtPkts (muxVideo env false (encodeStream (p0 :: ps))) =
      (p0 :: ps).map (fun q =>
        (q.ptype, q.pts % 2 ^ 64, wrapI64 (toI64 q.pts - toI64 p0.pts))) ∧
    (∀ q ∈ p0 :: ps, 2 ^ 63 ≤ q.pts % 2 ^ 64 → toI64 q.pts < 0) ∧
    (∀ q ∈ p0 :: ps, ((q.pts % 2 ^ 64 : Nat) : Int) < toI64 p0.pts →
      wrapI64 (toI64 q.pts - toI64 p0.pts) < 0) ∧
    (∀ z k : Int, wrapI64 (z + 2 ^ 64 * k) = wrapI64 z) := by
  obtain ⟨evs, st', heq, hpv, hbp, he0, hc0, hfp⟩ :=
    muxVideoFull_stream env hm hb (p0 :: ps) [] hrec hwf (by simp)
  rw [List.append_nil] at heq
  refine ⟨?_, ?_, fun q _ h => toI64_neg_of_ge q.pts h,
    fun q _ h => wrap_sub_neg q.pts (toI64 p0.pts) (toI64_ge p0.pts) (toI64_lt p0.pts) h,
    wrapI64_period⟩
  · rw [heq]
    simpa [nextFirst] using hfp
  · rw [muxVideo_eq_full env false (encodeStream (p0 :: ps)) hs, heq]
    simp only [builtPkts_append, muxEpilogue_builtPkts, List.append_nil]
    rw [hbp, builtOf_none_cons]
    simp [sub_self, wrapI64_zero]

theorem C9_signed_pts_arithmetic_witness :
    ((muxVideoFull happyEnv false
        (encodeStream [⟨1, 10, []⟩, ⟨1, 3, []⟩])).2.1.firstPts
        = some (toI64 (Pkt.mk 1 10 []).pts) ∧
      builtPkts (muxVideo happyEnv false (encodeStream [⟨1, 10, []⟩, ⟨1, 3, []⟩])) =
        ([⟨1, 10, []⟩, ⟨1, 3, []⟩] : List Pkt).map (fun q =>
          (q.ptype, q.pts % 2 ^ 64, wrapI64 (toI64 q.pts - toI64 (Pkt.mk 1 10 []).pts))) ∧
      (∀ q ∈ ([⟨1, 10, []⟩, ⟨1, 3, []⟩] : List Pkt), 2 ^ 63 ≤ q.pts % 2 ^ 64 →
        toI64 q.pts < 0) ∧
      (∀ q ∈ ([⟨1, 10, []⟩, ⟨1, 3, []⟩] : List Pkt),
        ((q.pts % 2 ^ 64 : Nat) : Int) < toI64 (Pkt.mk 1 10 []).pts →
        wrapI64 (toI64 q.pts - toI64 (Pkt.mk 1 10 []).pts) < 0) ∧
      (∀ z k : Int, wrapI64 (z + 2 ^ 64 * k) = wrapI64 z)) ∧
    ((muxVideoFull happyEnv false
        (encodeStream [⟨1, 2 ^ 63 + 5, []⟩, ⟨2, 2 ^ 63, []⟩])).2.1.firstPts
        = some (toI64 (Pkt.mk 1 (2 ^ 63 + 5) []).pts) ∧
      builtPkts (muxVideo happyEnv false
        (encodeStream [⟨1, 2 ^ 63 + 5, []⟩, ⟨2, 2 ^ 63, []⟩])) =
        ([⟨1, 2 ^ 63 + 5, []⟩, ⟨2, 2 ^ 63, []⟩] : List Pkt).map (fun q =>
          (q.ptype, q.pts % 2 ^ 64,
            wrapI64 (toI64 q.pts - toI64 (Pkt.mk 1 (2 ^ 63 + 5) []).pts))) ∧
      (∀ q ∈ ([⟨1, 2 ^ 63 + 5, []⟩, ⟨2, 2 ^ 63, []⟩] : List Pkt),
        2 ^ 63 ≤ q.pts % 2 ^ 64 → toI64 q.pts < 0) ∧
      (∀ q ∈ ([⟨1, 2 ^ 63 + 5, []⟩, ⟨2, 2 ^ 63, []⟩] : List Pkt),
        ((q.pts % 2 ^ 64 : Nat) : Int) < toI64 (Pkt.mk 1 (2 ^ 63 + 5) []).pts →
        wrapI64 (toI64 q.pts - toI64 (Pkt.mk 1 (2 ^ 63 + 5) []).pts) < 0) ∧
      (∀ z k : Int, wrapI64 (z + 2 ^ 64 * k) = wrapI64 z)) ∧
    2 ^ 63 ≤ (2 ^ 63 + 5) % 2 ^ 64 ∧
    (((3 % 2 ^ 64 : Nat) : Int) < toI64 10) :=
  ⟨C9_signed_pts_arithmetic happyEnv ⟨1, 10, []⟩ [⟨1, 3, []⟩] (fun _ => rfl) (fun _ => rfl)
      (by decide) (by decide) ⟨rfl, rfl, rfl, rfl, rfl, rfl, rfl, rfl⟩,
   C9_signed_pts_arithmetic happyEnv ⟨1, 2 ^ 63 + 5, []⟩ [⟨2, 2 ^ 63, []⟩]
      (fun _ => rfl) (fun _ => rfl) (by decide) (by decide)
      ⟨rfl, rfl, rfl, rfl, rfl, rfl, rfl, rfl⟩,
   by decide, by decide⟩

end Cryptocam
